import Mathlib

/-!
Shallow embedding of `backend/main.py` from the HiredAI backend
(learning-style classifier, dataset-name resolver, content selector),
together with proofs of the specification claims about it.

Python strings are modelled as `List Char` restricted to the ASCII
behaviour of `str.strip` / `str.upper` / `str.lower` (the data handled by
the endpoints — question keys, option letters, course slugs, file names —
is ASCII).  Python's float computation `int(round(x / y * 100))` is
modelled bit-exactly: the division and the multiplication are IEEE-754
binary64 operations (round to nearest, ties to even, 53-bit
significands, embedded as integer significand–exponent pairs), and
`round` is Python's half-to-even rounding of the resulting double — so
the model reproduces cases such as `23 / 40 * 100 = 57.49999999999999`,
which rounds to `57` although the exact rational `57.5` would round
to `58`.
-/

set_option maxRecDepth 4000

namespace HiredAI

/-- Python strings, modelled as lists of characters. -/
abbrev PyStr := List Char

/-- The whitespace characters stripped by Python's `str.strip()`
(ASCII subset: space, tab, newline, carriage return, vertical tab,
form feed). -/
def isPySpace (c : Char) : Bool :=
  c = ' ' || c = '\t' || c = '\n' || c = '\r' || c = '\x0b' || c = '\x0c'

/-- `str.strip()`: drop leading and trailing whitespace. -/
def pyStrip (s : PyStr) : PyStr :=
  ((s.dropWhile isPySpace).reverse.dropWhile isPySpace).reverse

/-- `str.upper()` on a single ASCII character. -/
def pyUpperChar (c : Char) : Char :=
  if 97 ≤ c.toNat ∧ c.toNat ≤ 122 then Char.ofNat (c.toNat - 32) else c

/-- `str.lower()` on a single ASCII character. -/
def pyLowerChar (c : Char) : Char :=
  if 65 ≤ c.toNat ∧ c.toNat ≤ 90 then Char.ofNat (c.toNat + 32) else c

/-- `str.upper()`. -/
def pyUpper (s : PyStr) : PyStr := s.map pyUpperChar

/-- `str.lower()`. -/
def pyLower (s : PyStr) : PyStr := s.map pyLowerChar

/-- `str.startswith(p)`. -/
def pyStartsWith (s p : PyStr) : Bool := p.isPrefixOf s

/-- `str.endswith(p)`. -/
def pyEndsWith (s p : PyStr) : Bool := p.isSuffixOf s

/-- Python's builtin `round` on an exact rational, as used in
`int(round(x))`: round half to even (banker's rounding). -/
def pyRound (q : ℚ) : ℤ :=
  let f : ℤ := ⌊q⌋
  let r : ℚ := q - f
  if r < 1/2 then f
  else if 1/2 < r then f + 1
  else if f % 2 = 0 then f else f + 1

/-- `⌊log₂ n⌋`, by fuel-driven repeated halving (any fuel `≥ n`
computes it); structural recursion on the fuel, so it reduces inside
the kernel. -/
def natLog2F : Nat → Nat → Nat
  | 0, _ => 0
  | fuel + 1, n => if 2 ≤ n then natLog2F fuel (n / 2) + 1 else 0

/-- Round the fraction `p / q` (with `q > 0`) to the nearest integer,
ties to even — the rounding IEEE 754 applies to significands, and the
rounding Python's `round` applies to halves. -/
def natRoundHalfEven (p q : Nat) : Nat :=
  let f := p / q
  let r := p % q
  if 2 * r < q then f
  else if q < 2 * r then f + 1
  else if f % 2 = 0 then f else f + 1

/-- `⌊log₂ (n / d)⌋` of a positive rational `n / d`, as an integer:
for `n ≥ d` take the floor log of the integer quotient; for `n < d` the
answer is `-k` for the least `k` with `d ≤ n · 2^k`, which bit lengths
pin to one of two candidates. -/
def ratLog2Floor (n d : Nat) : Int :=
  if d ≤ n then (natLog2F n (n / d) : Int)
  else
    let k0 := natLog2F d d - natLog2F n n
    if d ≤ n * 2 ^ k0 then -(k0 : Int) else -((k0 : Int) + 1)

/-- The IEEE-754 binary64 double nearest to `n / d` (round to nearest,
ties to even), as a significand–exponent pair `(m, e)` of value
`m · 2^e` with `2^52 ≤ m < 2^53` (or `m = 0`): scale `n / d` into
`[2^52, 2^53)` by `2^(52 - ⌊log₂(n/d)⌋)` and round half to even.  The
exponent is unbounded here, so the model agrees with binary64 away from
overflow and subnormals — regimes whose magnitudes (beyond `2^1024`,
below `2^-1022`) these endpoints' score ratios cannot reach. -/
def roundSig53 (n d : Nat) : Nat × Int :=
  if n = 0 ∨ d = 0 then (0, 0)
  else
    let L := ratLog2Floor n d
    let sh := 52 - L
    let m :=
      if 0 ≤ sh then natRoundHalfEven (n * 2 ^ sh.toNat) d
      else natRoundHalfEven n (d * 2 ^ (-sh).toNat)
    if m = 2 ^ 53 then (2 ^ 52, L - 51) else (m, L - 52)

/-- Binary64 multiplication of the double `(m, e)` by the exact constant
`100`: re-round the scaled significand `m · 100`. -/
def mulPow100 (me : Nat × Int) : Nat × Int :=
  let r := roundSig53 (me.1 * 100) 1
  (r.1, r.2 + me.2)

/-- Python's `round` on the non-negative double `m · 2^E` (the
one-argument `round` of a float is exact: half to even on the double's
value, which is an integer divided by a power of two). -/
def roundFloatPos (m : Nat) (E : Int) : Nat :=
  if 0 ≤ E then m * 2 ^ E.toNat
  else natRoundHalfEven m (2 ^ (-E).toNat)

/-- `int(round(a / b * 100))` for integers `a`, `b ≠ 0`, evaluated the
way CPython evaluates it: `a / b` is the correctly rounded binary64
quotient, `* 100` is a binary64 multiplication, and `round` is
half-to-even on the resulting double — not on the exact rational
`100·a/b`, from which the result can differ by one at representation
boundaries (`23 / 40 * 100` is the double `57.49999999999999`, rounding
to `57` where the exact `57.5` would round to `58`). -/
def pyFloatPercent (a b : ℤ) : ℤ :=
  let me := mulPow100 (roundSig53 a.natAbs b.natAbs)
  let mag := roundFloatPos me.1 me.2
  if (decide (a < 0)).xor (decide (b < 0)) then -(mag : ℤ) else (mag : ℤ)

/-- The exact rational value of a significand–exponent pair. -/
def sigVal (me : Nat × Int) : ℚ := (me.1 : ℚ) * 2 ^ me.2

/-- The exact rational value of the binary64 evaluation of
`a / b * 100` — the number Python's `round` actually sees. -/
def floatTimes100Val (a b : ℤ) : ℚ :=
  let v := sigVal (mulPow100 (roundSig53 a.natAbs b.natAbs))
  if (decide (a < 0)).xor (decide (b < 0)) then -v else v

/-! ## The learning-style classifier (`predict_learning_path`) -/

/-- The three learning-style categories. -/
inductive Cat where
  | Short
  | Elaborate
  | Realistic
deriving DecidableEq, Repr

open Cat

/-- The category names as they appear in the Python dicts
(`scores`, `counts`, `recommended_map`). -/
def catName : Cat → PyStr
  | Short => "Short".toList
  | Elaborate => "Elaborate".toList
  | Realistic => "Realistic".toList

/-- A triple indexed by the three categories (the shape of the Python
dicts `{"Short": _, "Elaborate": _, "Realistic": _}`). -/
structure Tri (α : Type) where
  short : α
  elaborate : α
  realistic : α
deriving DecidableEq, Repr

def Tri.get (t : Tri α) : Cat → α
  | Short => t.short
  | Elaborate => t.elaborate
  | Realistic => t.realistic

def Tri.set (t : Tri α) : Cat → α → Tri α
  | Short, v => { t with short := v }
  | Elaborate, v => { t with elaborate := v }
  | Realistic, v => { t with realistic := v }

/-- Per-question option table: the Python dict
`mapping[q] = {"A": (cat, w), "B": …, "C": …}` for one question,
kept in insertion order. -/
def qOptions (key : PyStr) : Option (List (PyStr × Cat × Nat)) :=
  if key = "q1".toList then
    some [("A".toList, Short, 2), ("B".toList, Elaborate, 1), ("C".toList, Realistic, 0)]
  else if key = "q2".toList then
    some [("A".toList, Short, 1), ("B".toList, Elaborate, 2), ("C".toList, Realistic, 2)]
  else if key = "q3".toList then
    some [("A".toList, Short, 2), ("B".toList, Elaborate, 1), ("C".toList, Realistic, 1)]
  else if key = "q4".toList then
    some [("A".toList, Short, 1), ("B".toList, Elaborate, 2), ("C".toList, Realistic, 2)]
  else if key = "q5".toList then
    some [("A".toList, Short, 1), ("B".toList, Elaborate, 2), ("C".toList, Realistic, 1)]
  else if key = "q6".toList then
    some [("A".toList, Short, 2), ("B".toList, Elaborate, 1), ("C".toList, Realistic, 0)]
  else if key = "q7".toList then
    some [("A".toList, Short, 1), ("B".toList, Elaborate, 2), ("C".toList, Realistic, 1)]
  else if key = "q8".toList then
    some [("A".toList, Short, 0), ("B".toList, Elaborate, 2), ("C".toList, Realistic, 2)]
  else if key = "q9".toList then
    some [("A".toList, Short, 2), ("B".toList, Elaborate, 1), ("C".toList, Realistic, 1)]
  else if key = "q10".toList then
    some [("A".toList, Short, 1), ("B".toList, Elaborate, 2), ("C".toList, Realistic, 2)]
  else none

/-- Assoc-list lookup, the semantics of `a in mapping[key]` followed by
`mapping[key][a]` on the per-question dict. -/
def optLookup (a : PyStr) : List (PyStr × Cat × Nat) → Option (Cat × Nat)
  | [] => none
  | (k, cw) :: rest => if a = k then some cw else optLookup a rest

/-- `(key, answer) ↦ (category, weight)` when both `key in mapping` and
`answer in mapping[key]` hold; `none` otherwise. -/
def mappingLookup (key a : PyStr) : Option (Cat × Nat) :=
  match qOptions key with
  | none => none
  | some opts => optLookup a opts

/-- Python's `max(xs, key=f)` on a non-empty list given as head/tail:
returns the first element attaining the maximal key. -/
def pyMaxBy (f : α → Nat) (x : α) (xs : List α) : α :=
  xs.foldl (fun b y => if f b < f y then y else b) x

/-- `max(mapping[key].values(), key=lambda x: x[1])[1]`: the maximal
weight offered by one question's options. -/
def maxOptWeight : List (PyStr × Cat × Nat) → Nat
  | [] => 0
  | o :: os => (pyMaxBy (fun p => p.2.2) o os).2.2

/-- Accumulator state of the scoring loop in `predict_learning_path`:
the `scores` dict, the `counts` dict and `total_possible`. -/
structure ScoreAcc where
  scores : Tri Nat
  counts : Tri Nat
  totalPossible : Nat
deriving DecidableEq, Repr

def initAcc : ScoreAcc := ⟨⟨0, 0, 0⟩, ⟨0, 0, 0⟩, 0⟩

/-- One iteration of `for q, ans in answers.items(): …`.  The loop
re-normalizes: `key = str(q).strip()`, `a = str(ans).strip().upper()`. -/
def scoreStep (acc : ScoreAcc) (kv : PyStr × PyStr) : ScoreAcc :=
  let key := pyStrip kv.1
  let a := pyUpper (pyStrip kv.2)
  match qOptions key with
  | none => acc
  | some opts =>
    match optLookup a opts with
    | none => acc
    | some (cat, w) =>
      { scores := acc.scores.set cat (acc.scores.get cat + w)
        counts := acc.counts.set cat (acc.counts.get cat + 1)
        totalPossible := acc.totalPossible + maxOptWeight opts }

/-- The whole scoring loop over the answers dict (given as its item
list; as a JSON object its keys are distinct, but no theorem below
needs that). -/
def scoreLoop (answers : List (PyStr × PyStr)) : ScoreAcc :=
  answers.foldl scoreStep initAcc

/-- The fallback for `total_possible == 0`:
`2 * max(1, len([k for k in answers if k.lower().startswith("q")]))`. -/
def fallbackTotal (answers : List (PyStr × PyStr)) : Nat :=
  2 * max 1 (answers.filter (fun kv => pyStartsWith (pyLower kv.1) ['q'])).length

/-- `total_possible` after the zero fallback. -/
def rawTotalPossible (answers : List (PyStr × PyStr)) : Nat :=
  let t := (scoreLoop answers).totalPossible
  if t = 0 then fallbackTotal answers else t

/-- The dict-iteration order of `scores` / `counts`
(`{"Short": 0, "Elaborate": 0, "Realistic": 0}`). -/
def cats : List Cat := [Short, Elaborate, Realistic]

/-- Python `max` over a non-empty list of naturals (here: dict values). -/
def listMax (xs : List Nat) : Nat := xs.foldl Nat.max 0

/-- The tie-break priority list `fallback_priority = ["Short", "Realistic", "Elaborate"]`. -/
def fallbackPriority : List Cat := [Short, Realistic, Elaborate]

/-- The dominant-category selection of `predict_learning_path`
(lines 240–256): max score, then counts among the tied, then the fixed
priority order.  The `headD Short` default mirrors `count_winners[0]`
and is unreachable (`count_winners` is never empty). -/
def dominantCat (scores counts : Tri Nat) : Cat :=
  let maxScore := listMax (cats.map scores.get)
  let winners := cats.filter (fun c => scores.get c = maxScore)
  match winners with
  | [w] => w
  | _ =>
    let maxCount := listMax (winners.map counts.get)
    let countWinners := winners.filter (fun c => counts.get c = maxCount)
    match countWinners with
    | [w] => w
    | _ =>
      match fallbackPriority.find? (fun p => countWinners.contains p) with
      | some p => p
      | none => countWinners.headD Short

/-- The JSON body returned by `predict_learning_path`. -/
structure PredictResponse where
  user_category : PyStr
  scores : Tri Int
  percentage : Int
  message : PyStr
  recommended_courses : List PyStr
deriving DecidableEq, Repr

/-- An `HTTPException(status_code, detail)`. -/
structure HttpError where
  status_code : Nat
  detail : PyStr
deriving DecidableEq, Repr

/-- `recommended_map.get(dominant, [])`, keyed by the category-name
string (the pass-through path may feed it an arbitrary string). -/
def recommendedMap (dominant : PyStr) : List PyStr :=
  if dominant = "Short".toList then ["advanced_react_patterns".toList]
  else if dominant = "Elaborate".toList then
    ["typescript_deep_dive".toList, "machine_learning_basics".toList]
  else if dominant = "Realistic".toList then
    ["aws_developer".toList, "hands_on_projects".toList]
  else []

/-- `f"User mapped to {dominant} learning style"`. -/
def mappedMessage (dominant : PyStr) : PyStr :=
  "User mapped to ".toList ++ dominant ++ " learning style".toList

/-- The raw-answers branch of `predict_learning_path`, applied to the
value-normalized answers dict
`answers = {k: str(v).strip().upper() for k, v in payload.items()}`. -/
def predictRaw (payload : List (PyStr × PyStr)) : Except HttpError PredictResponse :=
  let answers := payload.map (fun kv => (kv.1, pyUpper (pyStrip kv.2)))
  if answers.isEmpty then
    .error ⟨400, "No answers provided".toList⟩
  else
    let acc := scoreLoop answers
    let totalPossible := if acc.totalPossible = 0 then fallbackTotal answers else acc.totalPossible
    let dominant := dominantCat acc.scores acc.counts
    let percentage : Int :=
      pyFloatPercent (acc.scores.get dominant : Int) (max 1 totalPossible : Nat)
    .ok
      { user_category := catName dominant
        scores := ⟨acc.scores.short, acc.scores.elaborate, acc.scores.realistic⟩
        percentage := percentage
        message := mappedMessage (catName dominant)
        recommended_courses := recommendedMap (catName dominant) }

/-- `scores.get(dominant, 0)` on the sanitized pass-through scores dict
(keys `"Short"`, `"Elaborate"`, `"Realistic"`). -/
def scoreGetByName (scores : Tri Int) (dominant : PyStr) : Int :=
  if dominant = "Short".toList then scores.short
  else if dominant = "Elaborate".toList then scores.elaborate
  else if dominant = "Realistic".toList then scores.realistic
  else 0

/-- `dominant in scores`. -/
def isScoreKey (dominant : PyStr) : Bool :=
  dominant = "Short".toList || dominant = "Elaborate".toList || dominant = "Realistic".toList

/-- The pass-through branch of `predict_learning_path` (payload already
contains `dominantStyle` and `scores`): the three scores arrive already
coerced by `int(...)`, `total = sum(scores.values()) or 1`, and the
percentage is recomputed against `total`. -/
def assessmentResult (dominantStyle : PyStr) (scores : Tri Int) : PredictResponse :=
  let total : Int :=
    if scores.short + scores.elaborate + scores.realistic = 0 then 1
    else scores.short + scores.elaborate + scores.realistic
  let percentage : Int :=
    if isScoreKey dominantStyle then pyFloatPercent (scoreGetByName scores dominantStyle) total
    else 0
  { user_category := dominantStyle
    scores := scores
    percentage := percentage
    message := mappedMessage dominantStyle
    recommended_courses := recommendedMap dominantStyle }

/-- The two input shapes `predict_learning_path` accepts; the handler
discriminates on `"dominantStyle" in payload and "scores" in payload`. -/
inductive Payload where
  | assessment (dominantStyle : PyStr) (scores : Tri Int)
  | raw (answers : List (PyStr × PyStr))

/-- The whole `predict_learning_path` handler. -/
def predictLearningPath : Payload → Except HttpError PredictResponse
  | .assessment dominantStyle scores => .ok (assessmentResult dominantStyle scores)
  | .raw answers => predictRaw answers

/-! ## The dataset resolver (`find_dataset_filename_for_course`)

The third matching layer calls `difflib.get_close_matches(norm,
norm_map.values(), n=1, cutoff=0.6)`; the `SequenceMatcher` machinery it
relies on is embedded below.  The inputs here are short ASCII slugs, far
below the autojunk threshold (200 characters) and with no junk predicate,
so `find_longest_match` is the pure dynamic program (the junk/popular
extension loops of CPython are no-ops without junk). -/

/-- `normalize_slug`: strip, lowercase, then map each of `-`, `_`, `.`
to a space (single-character `str.replace`). -/
def normalizeSlug (name : PyStr) : PyStr :=
  (pyLower (pyStrip name)).map (fun c => if c = '-' ∨ c = '_' ∨ c = '.' then ' ' else c)

/-- `os.path.splitext(f)[0]` for a bare file name: cut at the last dot
unless every character before it is a dot (leading-dot names have no
extension). -/
def splitextBase (f : PyStr) : PyStr :=
  if f.contains '.' then
    let i := f.length - 1 - f.reverse.indexOf '.'
    if (f.take i).all (fun c => c = '.') then f else f.take i
  else f

/-- `SequenceMatcher.b2j`: the ascending indices at which `c` occurs in
`b` (no junk, no autojunk for these short inputs). -/
def b2j (b : PyStr) (c : Char) : List Nat :=
  (List.range b.length).filter (fun j => b.get? j = some c)

/-- Lookup in the `j2len` dict with default 0. -/
def j2Get (m : List (Nat × Nat)) (j : Nat) : Nat :=
  match m.find? (fun p => p.1 = j) with
  | some p => p.2
  | none => 0

/-- The inner loop of `find_longest_match` over `for j in b2j.get(a[i], [])`:
`continue` below `blo`, `break` at `bhi`, extend the common-suffix length
table and track the best `(besti, bestj, bestsize)`. -/
def flmInner (blo bhi i : Nat) (j2len : List (Nat × Nat)) :
    List Nat → List (Nat × Nat) → Nat × Nat × Nat → List (Nat × Nat) × (Nat × Nat × Nat)
  | [], acc, best => (acc, best)
  | j :: js, acc, best =>
    if j < blo then flmInner blo bhi i j2len js acc best
    else if bhi ≤ j then (acc, best)
    else
      let k := (if j = 0 then 0 else j2Get j2len (j - 1)) + 1
      let best' := if best.2.2 < k then (i + 1 - k, j + 1 - k, k) else best
      flmInner blo bhi i j2len js ((j, k) :: acc) best'

/-- The outer loop of `find_longest_match` over `for i in range(alo, ahi)`;
`steps` counts the remaining iterations. -/
def flmOuter (a : PyStr) (bj : Char → List Nat) (blo bhi : Nat) :
    Nat → Nat → List (Nat × Nat) → Nat × Nat × Nat → Nat × Nat × Nat
  | _, 0, _, best => best
  | i, steps + 1, j2len, best =>
    let js := match a.get? i with
      | some c => bj c
      | none => []
    let (newJ2len, best') := flmInner blo bhi i j2len js [] best
    flmOuter a bj blo bhi (i + 1) steps newJ2len best'

/-- `SequenceMatcher.find_longest_match(alo, ahi, blo, bhi)` with
`a`, `b` junk-free. -/
def findLongestMatch (a b : PyStr) (alo ahi blo bhi : Nat) : Nat × Nat × Nat :=
  flmOuter a (b2j b) blo bhi alo (ahi - alo) [] (alo, blo, 0)

/-- Total size of all matching blocks (`get_matching_blocks` recursion,
summing only the sizes since `ratio` needs nothing else).  The fuel is
an upper bound on the recursion depth, which shrinks the `a`-interval by
at least one per level. -/
def matchTotal (a b : PyStr) : Nat → Nat → Nat → Nat → Nat → Nat
  | 0, _, _, _, _ => 0
  | fuel + 1, alo, ahi, blo, bhi =>
    let (i, j, k) := findLongestMatch a b alo ahi blo bhi
    if k = 0 then 0
    else k + matchTotal a b fuel alo i blo j + matchTotal a b fuel (i + k) ahi (j + k) bhi

/-- A ratio as an exact non-negative fraction (numerator, positive
denominator); `ℚ` arithmetic does not reduce inside the kernel, so the
`difflib` ratios are carried as pairs and compared by
cross-multiplication.  The input slugs compared here are far too short
for two distinct exact ratios to collapse onto one double, so exact
comparison coincides with CPython's float comparison. -/
abbrev Frac := Nat × Nat

/-- `difflib._calculate_ratio(matches, length)`. -/
def calcRatio (m len : Nat) : Frac :=
  if len ≠ 0 then (2 * m, len) else (1, 1)

/-- `frac₁ < frac₂` by cross-multiplication (denominators positive). -/
def fracLt (x y : Frac) : Bool := x.1 * y.2 < y.1 * x.2

/-- `frac₁ = frac₂` as rational numbers. -/
def fracEq (x y : Frac) : Bool := x.1 * y.2 = y.1 * x.2

/-- `cutoff ≤ frac`, the `>= cutoff` gates of `get_close_matches`. -/
def cutoffLe (c : Frac) (x : Frac) : Bool := c.1 * x.2 ≤ x.1 * c.2

/-- `SequenceMatcher(None, a, b).ratio()`. -/
def ratioOf (a b : PyStr) : Frac :=
  calcRatio (matchTotal a b (a.length + b.length + 1) 0 a.length 0 b.length)
    (a.length + b.length)

/-- `SequenceMatcher.quick_ratio()`: per-character multiset overlap, an
upper bound on `ratio`. -/
def quickRatioOf (a b : PyStr) : Frac :=
  calcRatio (a.dedup.foldl (fun acc c => acc + min (a.count c) (b.count c)) 0)
    (a.length + b.length)

/-- `SequenceMatcher.real_quick_ratio()`. -/
def realQuickRatioOf (a b : PyStr) : Frac :=
  calcRatio (min a.length b.length) (a.length + b.length)

/-- Python string `<` (lexicographic on code points). -/
def pyStrLtB : PyStr → PyStr → Bool
  | [], [] => false
  | [], _ :: _ => true
  | _ :: _, [] => false
  | c :: s, d :: t =>
    if c.toNat < d.toNat then true
    else if d.toNat < c.toNat then false
    else pyStrLtB s t

/-- Python tuple `>` on the `(ratio, string)` pairs compared by
`heapq.nlargest`. -/
def pairGtB (y b : Frac × PyStr) : Bool :=
  fracLt b.1 y.1 || (fracEq y.1 b.1 && pyStrLtB b.2 y.2)

/-- `heapq.nlargest(1, pairs)` followed by dropping the score: the pair
maximal in tuple order (first among fully-equal pairs). -/
def nlargest1 : List (Frac × PyStr) → Option PyStr
  | [] => none
  | p :: ps => some (ps.foldl (fun b y => if pairGtB y b then y else b) p).2

/-- `difflib.get_close_matches(word, possibilities, n=1, cutoff)` —
the head of the result list, if any.  Each possibility `x` becomes
`seq1` against `seq2 = word`, and the three ratio gates short-circuit in
source order. -/
def getCloseMatch (word : PyStr) (possibilities : List PyStr) (cutoff : Frac) : Option PyStr :=
  nlargest1 (possibilities.filterMap (fun x =>
    if cutoffLe cutoff (realQuickRatioOf x word) then
      if cutoffLe cutoff (quickRatioOf x word) then
        let r := ratioOf x word
        if cutoffLe cutoff r then some (r, x) else none
      else none
    else none))

/-- Fuel-driven worker for `dedupKeys`; the fuel (initially the list
length, which only shrinks under `filter`) makes the recursion
structural so that it reduces definitionally. -/
def dedupKeysAux : Nat → List (PyStr × PyStr) → List (PyStr × PyStr)
  | 0, _ => []
  | _, [] => []
  | fuel + 1, p :: ps => p :: dedupKeysAux fuel (ps.filter (fun q => q.1 ≠ p.1))

/-- The dict comprehension `{b: normalize_slug(b) for b in basenames}`:
duplicate keys collapse to their first position (re-assignment keeps the
key's position, and the value is a function of the key). -/
def dedupKeys (l : List (PyStr × PyStr)) : List (PyStr × PyStr) :=
  dedupKeysAux l.length l

/-- The `difflib` layer of `find_dataset_filename_for_course`
(lines 100–107): normalized basenames, `get_close_matches` with
`n=1, cutoff=0.6`, then the first basename mapping to the match. -/
def closeMatchStage (norm : PyStr) (files : List PyStr) : Option PyStr :=
  let basenames := files.map splitextBase
  let normMap := dedupKeys (basenames.map (fun b => (b, normalizeSlug b)))
  match getCloseMatch norm (normMap.map (fun p => p.2)) (6, 10) with
  | none => none
  | some m =>
    match normMap.find? (fun p => p.2 = m) with
    | some p => some (p.1 ++ ".csv".toList)
    | none => none

/-- The candidate filenames generated from the normalized slug
(`variants` in the source). -/
def slugVariants (norm : PyStr) : List PyStr :=
  [ (norm.map (fun c => if c = ' ' then '_' else c)) ++ "_learning.csv".toList,
    (norm.map (fun c => if c = ' ' then '-' else c)) ++ "_learning.csv".toList,
    (norm.filter (fun c => c ≠ ' ')) ++ "_learning.csv".toList ]

/-- `find_dataset_filename_for_course(course_name)` over a directory
listing (`os.listdir(DATASET_DIR)`): keep `.csv` files, try the literal
candidate, then the slug variants, then the `difflib` layer. -/
def findDatasetFilename (course : PyStr) (listing : List PyStr) : Option PyStr :=
  let files := listing.filter (fun f => pyEndsWith (pyLower f) ".csv".toList)
  let candidate := course ++ "_learning.csv".toList
  if files.contains candidate then some candidate
  else
    let norm := normalizeSlug course
    match (slugVariants norm).find? (fun v => files.contains v) with
    | some v => some v
    | none => closeMatchStage norm files

/-! ## The learning-path endpoint (`get_learning_path`) -/

/-- A JSON/CSV cell value as it appears in the course records. -/
inductive PyVal where
  | str (s : PyStr)
  | int (n : Int)
deriving DecidableEq, Repr

/-- One course-content row, as the dict produced by
`df.to_dict(orient="records")` or listed in `fallback_content_map`. -/
abbrev Record := List (PyStr × PyVal)

instance : Nonempty Record := ⟨[]⟩

/-- `r.get(k)` (dict keys are unique, so first match). -/
def recordGet (r : Record) (k : PyStr) : Option PyVal :=
  match r.find? (fun p => p.1 = k) with
  | some p => some p.2
  | none => none

/-- `r.get("difficulty") in ("Intermediate", "Advanced")`. -/
def isInterAdv (r : Record) : Bool :=
  recordGet r "difficulty".toList = some (.str "Intermediate".toList) ||
  recordGet r "difficulty".toList = some (.str "Advanced".toList)

/-- The embedded `fallback_content_map` of `get_learning_path`,
keyed by course slug. -/
def fallbackContentMap : List (PyStr × List Record) :=
  [    ("advanced_react_patterns".toList,
     [
      [ ("module_id".toList, PyVal.int 1),
        ("module_name".toList, PyVal.str "Advanced React Patterns".toList),
        ("topic_title".toList, PyVal.str "Compound Components".toList),
        ("content_summary".toList, PyVal.str "Allows multiple components to work together as a cohesive unit; useful for flexible APIs.".toList),
        ("code_example".toList, PyVal.str "function Toggle(\x7bchildren\x7d) \x7b const [on,setOn] = React.useState(false); return React.Children.map(children, child => React.cloneElement(child, \x7bon, toggle: () => setOn(!on)\x7d)); \x7d".toList),
        ("difficulty".toList, PyVal.str "Advanced".toList) ],
      [ ("module_id".toList, PyVal.int 2),
        ("module_name".toList, PyVal.str "Advanced React Patterns".toList),
        ("topic_title".toList, PyVal.str "Custom Hooks".toList),
        ("content_summary".toList, PyVal.str "Encapsulate reusable stateful logic to share across components.".toList),
        ("code_example".toList, PyVal.str "function useToggle(initial=false) \x7b const [on,setOn] = React.useState(initial); const toggle = () => setOn(o => !o); return \x7bon, toggle\x7d; \x7d".toList),
        ("difficulty".toList, PyVal.str "Intermediate".toList) ] ]),
    ("aws_developer".toList,
     [
      [ ("module_id".toList, PyVal.int 1),
        ("module_name".toList, PyVal.str "AWS Developer Path".toList),
        ("topic_title".toList, PyVal.str "Intro to AWS & IAM".toList),
        ("content_summary".toList, PyVal.str "Overview of AWS core services and Identity & Access Management basics.".toList),
        ("code_example".toList, PyVal.str "aws iam create-user --user-name demo-user".toList),
        ("difficulty".toList, PyVal.str "Beginner".toList) ],
      [ ("module_id".toList, PyVal.int 2),
        ("module_name".toList, PyVal.str "AWS Developer Path".toList),
        ("topic_title".toList, PyVal.str "Lambda & Serverless".toList),
        ("content_summary".toList, PyVal.str "Build serverless functions and deploy with SAM or Serverless Framework.".toList),
        ("code_example".toList, PyVal.str "aws lambda create-function --function-name myFn --runtime python3.11 ...".toList),
        ("difficulty".toList, PyVal.str "Intermediate".toList) ] ]),
    ("data_structures_algorithms".toList,
     [
      [ ("module_id".toList, PyVal.int 1),
        ("module_name".toList, PyVal.str "DSA Fundamentals".toList),
        ("topic_title".toList, PyVal.str "Arrays & Strings".toList),
        ("content_summary".toList, PyVal.str "Basics of array and string manipulation and common techniques.".toList),
        ("code_example".toList, PyVal.str "function reverseString(s) \x7b return s.split(\x27\x27).reverse().join(\x27\x27); \x7d".toList),
        ("difficulty".toList, PyVal.str "Beginner".toList) ] ]),
    ("typescript_deep_dive".toList,
     [
      [ ("module_id".toList, PyVal.int 1),
        ("module_name".toList, PyVal.str "TypeScript Deep Dive".toList),
        ("topic_title".toList, PyVal.str "Types & Interfaces".toList),
        ("content_summary".toList, PyVal.str "Understanding types, interfaces, unions and generics in TypeScript.".toList),
        ("code_example".toList, PyVal.str "type User = \x7b id: number; name: string \x7d; function greet(u: User)\x7b console.log(u.name); \x7d".toList),
        ("difficulty".toList, PyVal.str "Intermediate".toList) ] ])
  ]

/-- `fallback_content_map.get(k)`. -/
def fallbackLookup (k : PyStr) : Option (List Record) :=
  match fallbackContentMap.find? (fun p => p.1 = k) with
  | some p => some p.2
  | none => none

/-- Python `x or y` on an optional record list (`None` and `[]` are both
falsy). -/
def pyOrRecords (o : Option (List Record)) (k : List Record) : List Record :=
  match o with
  | some rs => if rs.isEmpty then k else rs
  | none => k

/-- The validated `mode` query parameter
(`Query("Elaborate", enum=["Short", "Elaborate", "Realistic"])`). -/
inductive Mode where
  | Short
  | Elaborate
  | Realistic
deriving DecidableEq, Repr

/-- A successfully parsed CSV dataset: its rows and whether the header
has a `difficulty` column. -/
structure CsvData where
  rows : List Record
  hasDifficulty : Bool

/-- The pandas branch of `get_learning_path` (lines 304–311) applied to
a loaded dataset: `Short` takes the fixed-seed half sample (modelled by
the `sampleHalf` argument, `df.sample(frac=0.5, random_state=42)` being
a pandas-internal permutation), `Realistic` keeps the
Intermediate/Advanced rows and re-reads the full file when that filter
empties, `Elaborate` keeps everything. -/
def csvModeFilter (sampleHalf : List Record → List Record) (mode : Mode)
    (csv : CsvData) : List Record :=
  match mode with
  | .Short => if csv.rows.length > 1 then sampleHalf csv.rows else csv.rows
  | .Realistic =>
    if csv.hasDifficulty then
      let filtered := csv.rows.filter isInterAdv
      if filtered.length = 0 then csv.rows else filtered
    else csv.rows
  | .Elaborate => csv.rows

/-- The in-memory mode filter of `get_learning_path` (lines 383–391):
`Short` takes the positional first half (`max(1, len // 2)`),
`Realistic` prefers Intermediate/Advanced rows but keeps the full list
when none qualify. -/
def filterModeRecords (mode : Mode) (records : List Record) : List Record :=
  if mode = .Short ∧ records.length > 1 then
    records.take (max 1 (records.length / 2))
  else if mode = .Realistic then
    let filtered := records.filter isInterAdv
    if filtered.isEmpty then records else filtered
  else records

/-- The JSON body returned by `get_learning_path`. -/
structure LearnResponse where
  course_name : PyStr
  dataset_filename : PyStr
  learning_mode : Mode
  total_modules : Nat
  content : List Record
deriving DecidableEq, Repr

/-- The whole `get_learning_path` handler over a directory listing.
`loadCsv` models `pd.read_csv` on a resolved filename (`none` when
pandas fails and the handler falls back); `sampleHalf` models the
fixed-seed `df.sample`.  NaN sanitization (`replace_nan_with_none`) is
the identity on this value model, which has no float cells.  No branch
raises: a missed dataset and missed fallback produce the empty record
list, not an error. -/
def getLearningPath (course : PyStr) (mode : Mode) (listing : List PyStr)
    (loadCsv : PyStr → Option CsvData) (sampleHalf : List Record → List Record) :
    Except HttpError LearnResponse :=
  let filename := findDatasetFilename course listing
  let afterCsv : List Record :=
    match filename with
    | none => []
    | some fn =>
      match loadCsv fn with
      | none => []
      | some csv => csvModeFilter sampleHalf mode csv
  let dataRecords :=
    if afterCsv.isEmpty then
      let key := (normalizeSlug course).map (fun c => if c = ' ' then '_' else c)
      pyOrRecords (fallbackLookup key) (pyOrRecords (fallbackLookup course) [])
    else afterCsv
  let dataRecords := filterModeRecords mode dataRecords
  .ok
    { course_name := course
      dataset_filename :=
        match filename with
        | some fn => fn
        | none => "embedded_fallback".toList
      learning_mode := mode
      total_modules := dataRecords.length
      content := dataRecords }

/-! ## Claim-side definitions

These restate parts of the specification in their own words, to be
compared against the embedded code above. -/

/-- The spec's tie-break priority position of a category in the fixed
order [Short, Realistic, Elaborate] (smaller comes first). -/
def priorityIdx : Cat → Nat
  | Short => 0
  | Realistic => 1
  | Elaborate => 2

/-- Python `max` over the three score values, as an explicit ternary
maximum. -/
def maxScoreVal (s : Tri Nat) : Nat := listMax (cats.map s.get)

/-- The claim's "category with the maximum score". -/
def IsTopScore (s : Tri Nat) (c : Cat) : Prop := s.get c = maxScoreVal s

/-- The claim's per-question "maximum available weight": the largest
weight among the question's options (0 for an unrecognized question,
never used there). -/
def specQuestionMax (key : PyStr) : Nat :=
  match qOptions key with
  | some opts => (opts.map (fun o => o.2.2)).foldr max 0
  | none => 0

/-- The claim's `total_possible` before the zero fallback: the sum over
recognized (question, answer) pairs of that question's maximum available
weight.  `payload` is the raw input map; keys are stripped and values
trimmed/upper-cased exactly as the handler does before the lookup. -/
def specTotalSum (payload : List (PyStr × PyStr)) : Nat :=
  payload.foldl
    (fun t kv =>
      if (mappingLookup (pyStrip kv.1) (pyUpper (pyStrip kv.2))).isSome
      then t + specQuestionMax (pyStrip kv.1) else t) 0

/-- The claim's `total_possible`: the recognized-pair sum, replaced by
`2 × max(1, number of answer keys beginning with the letter "q")` when
that sum is zero. -/
def specTotalPossible (payload : List (PyStr × PyStr)) : Nat :=
  if specTotalSum payload = 0 then
    2 * max 1 (payload.filter (fun kv => pyStartsWith (pyLower kv.1) ['q'])).length
  else specTotalSum payload

/-- The claim's tokenization of the normalized input into words. -/
def tokensOf (norm : PyStr) : List PyStr :=
  (norm.splitOn ' ').filter (fun t => ¬t.isEmpty)

/-- The claim's token-containment test: every token of the normalized
input occurs as a substring of the normalized basename. -/
def containsAllTokens (norm normBase : PyStr) : Bool :=
  (tokensOf norm).all (fun t => decide (t <:+: normBase))

/-- The degenerate raw-path result for a non-empty, fully-unrecognized
answers map: zero scores, dominant `Short` by the priority fallback,
percentage 0. -/
def degenerateResponse : PredictResponse :=
  { user_category := "Short".toList
    scores := ⟨0, 0, 0⟩
    percentage := 0
    message := mappedMessage "Short".toList
    recommended_courses := ["advanced_react_patterns".toList] }

/-- The three category-name strings. -/
def catNames : List PyStr :=
  ["Short".toList, "Elaborate".toList, "Realistic".toList]

/-- Twenty distinct raw answer keys that all strip to `q1` or `q2`
(JSON object keys are distinct before stripping, not after): eleven
`q1`-with-trailing-spaces keys answering `A` (Short, weight 2 each),
one `q2` answering `A` (Short, weight 1), eight
`q1`-with-leading-spaces keys answering `C` (Realistic, weight 0).
The loop scores Short `2·11 + 1 = 23` against
`total_possible = 2·20 = 40`, and `23 / 40 * 100` is the double
`57.49999999999999`, which rounds to 57 — not the 58 of the exact
rational `57.5`. -/
def c4Payload : List (PyStr × PyStr) :=
  [("q1".toList, "A".toList),
   ("q1 ".toList, "A".toList),
   ("q1  ".toList, "A".toList),
   ("q1   ".toList, "A".toList),
   ("q1    ".toList, "A".toList),
   ("q1     ".toList, "A".toList),
   ("q1      ".toList, "A".toList),
   ("q1       ".toList, "A".toList),
   ("q1        ".toList, "A".toList),
   ("q1         ".toList, "A".toList),
   ("q1          ".toList, "A".toList),
   ("q2".toList, "A".toList),
   (" q1".toList, "C".toList),
   ("  q1".toList, "C".toList),
   ("   q1".toList, "C".toList),
   ("    q1".toList, "C".toList),
   ("     q1".toList, "C".toList),
   ("      q1".toList, "C".toList),
   ("       q1".toList, "C".toList),
   ("        q1".toList, "C".toList)]

/-! ## Theorems -/

/-- C9: For every non-empty source record set, mode filtering with mode
Realistic never returns an empty result: records with difficulty
Intermediate or Advanced are selected, and if that selection is empty
the full unfiltered set is returned instead.  Both Realistic filters —
the pandas branch (lines 304–311) and the in-memory branch
(lines 387–391) — satisfy this. -/
theorem C9_realistic_never_empty :
    ∀ (records : List Record), records ≠ [] →
      (∀ (hasDiff : Bool) (sampleHalf : List Record → List Record),
          csvModeFilter sampleHalf Mode.Realistic ⟨records, hasDiff⟩ ≠ [] ∧
          (hasDiff = true →
            csvModeFilter sampleHalf Mode.Realistic ⟨records, hasDiff⟩ =
              if (records.filter isInterAdv).length = 0 then records
              else records.filter isInterAdv)) ∧
      filterModeRecords Mode.Realistic records ≠ [] ∧
      filterModeRecords Mode.Realistic records =
        (if (records.filter isInterAdv).isEmpty then records
         else records.filter isInterAdv) := by
  intro records hne
  have hmem : filterModeRecords Mode.Realistic records =
      (if (records.filter isInterAdv).isEmpty then records
       else records.filter isInterAdv) := by
    simp [filterModeRecords]
  refine ⟨fun hasDiff sampleHalf => ⟨?_, ?_⟩, ?_, hmem⟩
  · cases hasDiff
    · simpa [csvModeFilter] using hne
    · rcases h : records.filter isInterAdv with _ | ⟨r, rs⟩
      · simpa [csvModeFilter, h] using hne
      · simp [csvModeFilter, h]
  · intro hd
    subst hd
    simp [csvModeFilter]
  · rw [hmem]
    rcases h : records.filter isInterAdv with _ | ⟨r, rs⟩
    · simpa [h] using hne
    · simp [h]

/-- Witness for C9 at a concrete record set: a single Beginner record
survives Realistic filtering via the full-set fallback. -/
theorem C9_realistic_never_empty_witness :
    filterModeRecords Mode.Realistic
      [[("difficulty".toList, PyVal.str "Beginner".toList)]] ≠ [] :=
  (C9_realistic_never_empty _ (by decide)).2.1

/-- C8 counterexample: for a course with no resolvable dataset (empty
directory listing) and no embedded fallback entry, `get_learning_path`
does NOT fail with a 404-level error: it returns a successful response
with `embedded_fallback` and zero modules. -/
theorem C8_counterexample :
    getLearningPath "no such course".toList Mode.Elaborate []
        (fun _ => none) (fun rs => rs) =
      .ok { course_name := "no such course".toList
            dataset_filename := "embedded_fallback".toList
            learning_mode := Mode.Elaborate
            total_modules := 0
            content := [] } := rfl

/-- C8 amended: when no dataset file is resolvable for the course name
and no embedded fallback entry exists for it, the learning-path endpoint
does not fail: it returns a successful response with dataset name
`embedded_fallback`, zero total_modules and empty content. -/
theorem C8_no_dataset_no_fallback_success :
    ∀ (course : PyStr) (mode : Mode) (listing : List PyStr)
      (loadCsv : PyStr → Option CsvData) (sampleHalf : List Record → List Record),
      findDatasetFilename course listing = none →
      fallbackLookup ((normalizeSlug course).map (fun c => if c = ' ' then '_' else c)) = none →
      fallbackLookup course = none →
      getLearningPath course mode listing loadCsv sampleHalf =
        .ok { course_name := course
              dataset_filename := "embedded_fallback".toList
              learning_mode := mode
              total_modules := 0
              content := [] } := by
  intro course mode listing loadCsv sampleHalf h1 h2 h3
  have hfilter : filterModeRecords mode [] = [] := by
    cases mode <;> simp [filterModeRecords]
  simp [getLearningPath, h1, h2, h3, pyOrRecords, hfilter]

/-- Witness for C8 amended at the counterexample's concrete input. -/
theorem C8_no_dataset_no_fallback_success_witness :
    getLearningPath "qwzx".toList Mode.Realistic []
        (fun _ => none) (fun rs => rs) =
      .ok { course_name := "qwzx".toList
            dataset_filename := "embedded_fallback".toList
            learning_mode := Mode.Realistic
            total_modules := 0
            content := [] } :=
  C8_no_dataset_no_fallback_success _ _ _ _ _ (by decide) (by decide) (by decide)

/-- C7 counterexample: for input `react` against a listing holding
`advanced_react_patterns_learning.csv`, the file's normalized basename
contains every token of the normalized input, no generated candidate
matches, yet the resolver selects nothing — there is no
token-containment layer. -/
theorem C7_counterexample :
    containsAllTokens (normalizeSlug "react".toList)
        (normalizeSlug (splitextBase "advanced_react_patterns_learning.csv".toList)) = true ∧
    findDatasetFilename "react".toList
        ["advanced_react_patterns_learning.csv".toList] = none := by
  constructor
  · decide
  · decide

/-- C7 amended: in the dataset resolver, when no generated candidate
filename matches the directory listing, the resolver proceeds directly
to approximate string matching (`difflib.get_close_matches`, cutoff 0.6)
over the normalized basenames; no token-containment layer exists between
the two. -/
theorem C7_no_token_layer :
    ∀ (course : PyStr) (listing : List PyStr),
      (listing.filter (fun f => pyEndsWith (pyLower f) ".csv".toList)).contains
          (course ++ "_learning.csv".toList) = false →
      (∀ v ∈ slugVariants (normalizeSlug course),
        (listing.filter (fun f => pyEndsWith (pyLower f) ".csv".toList)).contains v = false) →
      findDatasetFilename course listing =
        closeMatchStage (normalizeSlug course)
          (listing.filter (fun f => pyEndsWith (pyLower f) ".csv".toList)) := by
  intro course listing h1 h2
  rw [findDatasetFilename]
  simp only [h1, Bool.false_eq_true, if_false]
  have hfind : (slugVariants (normalizeSlug course)).find?
      (fun v => (listing.filter (fun f => pyEndsWith (pyLower f) ".csv".toList)).contains v) = none := by
    rw [List.find?_eq_none]
    intro v hv
    simpa using h2 v hv
  rw [hfind]

/-- Witness for C7 amended: with candidates missing, the resolver's
output coincides with the difflib layer's output on a concrete input. -/
theorem C7_no_token_layer_witness :
    findDatasetFilename "abc".toList ["abd.csv".toList] =
      closeMatchStage (normalizeSlug "abc".toList)
        (["abd.csv".toList].filter (fun f => pyEndsWith (pyLower f) ".csv".toList)) :=
  C7_no_token_layer _ _ (by decide) (by decide)

/-- C2 counterexample: a pre-computed payload whose `dominantStyle` is
`Banana` is passed through verbatim, so the returned `user_category` is
not one of the three fixed categories. -/
theorem C2_counterexample :
    predictLearningPath (Payload.assessment "Banana".toList ⟨1, 2, 3⟩) =
      .ok (assessmentResult "Banana".toList ⟨1, 2, 3⟩) ∧
    (assessmentResult "Banana".toList ⟨1, 2, 3⟩).user_category ∉ catNames := by
  exact ⟨rfl, by decide⟩

/-- C2 amended: in the raw-answers path the returned `user_category` is
always one of the three fixed categories; in the pass-through path the
submitted `dominantStyle` string is returned verbatim (and need not be
one of the three). -/
theorem C2_raw_category_fixed :
    (∀ (payload : List (PyStr × PyStr)) (r : PredictResponse),
        predictRaw payload = .ok r → r.user_category ∈ catNames) ∧
    (∀ (d : PyStr) (s : Tri Int),
        predictLearningPath (.assessment d s) = .ok (assessmentResult d s) ∧
        (assessmentResult d s).user_category = d) := by
  constructor
  · intro payload r h
    rw [predictRaw] at h
    split at h
    · exact absurd h (by simp)
    · injection h with h
      subst h
      cases (dominantCat (scoreLoop (payload.map fun kv => (kv.1, pyUpper (pyStrip kv.2)))).scores
          (scoreLoop (payload.map fun kv => (kv.1, pyUpper (pyStrip kv.2)))).counts) <;>
        simp [catName, catNames]
  · intro d s
    exact ⟨rfl, rfl⟩

/-- Witness for C2 amended: the raw path on `{q1: "A"}` lands on a
member of the fixed category list. -/
theorem C2_raw_category_fixed_witness :
    ({ user_category := "Short".toList
       scores := ⟨2, 0, 0⟩
       percentage := 100
       message := mappedMessage "Short".toList
       recommended_courses := ["advanced_react_patterns".toList] } :
        PredictResponse).user_category ∈ catNames :=
  C2_raw_category_fixed.1 [("q1".toList, "A".toList)] _ rfl

/-- The scoring loop ignores every pair whose stripped key is not a
recognized question identifier. -/
theorem scoreLoop_all_unrecognized :
    ∀ (l : List (PyStr × PyStr)) (acc : ScoreAcc),
      (∀ kv ∈ l, qOptions (pyStrip kv.1) = none) → l.foldl scoreStep acc = acc := by
  intro l
  induction l with
  | nil => intro acc _; rfl
  | cons kv rest ih =>
    intro acc h
    rw [List.foldl_cons]
    have h1 := h kv (List.mem_cons_self kv rest)
    have hstep : scoreStep acc kv = acc := by
      rw [scoreStep, h1]
    rw [hstep]
    exact ih acc (fun kv' hkv' => h kv' (List.mem_cons_of_mem kv hkv'))

/-- Bridge between the kernel-computable integer rounding
`natRoundHalfEven` and the rational banker's rounding `pyRound`:
on a non-negative fraction they agree. -/
theorem natRoundHalfEven_eq_pyRound (p q : Nat) (hq : 0 < q) :
    ((natRoundHalfEven p q : ℕ) : ℤ) = pyRound ((p : ℚ) / (q : ℚ)) := by
  have hq0 : (0 : ℚ) < (q : ℚ) := by exact_mod_cast hq
  have hfloor : ⌊(p : ℚ) / (q : ℚ)⌋ = ((p / q : ℕ) : ℤ) := by
    have h1 := Rat.floor_intCast_div_natCast (p : ℤ) q
    rw [show (((p : ℤ)) : ℚ) = (p : ℚ) by push_cast; ring] at h1
    rw [h1, Int.natCast_div]
  have hdm : q * (p / q) + p % q = p := Nat.div_add_mod p q
  have hdmQ : (q : ℚ) * ((p / q : ℕ) : ℚ) + ((p % q : ℕ) : ℚ) = (p : ℚ) := by
    exact_mod_cast congrArg (Nat.cast : ℕ → ℚ) hdm
  have hfrac : (p : ℚ) / q - ((p / q : ℕ) : ℚ) = ((p % q : ℕ) : ℚ) / q := by
    rw [eq_div_iff (ne_of_gt hq0), sub_mul, div_mul_cancel₀ _ (ne_of_gt hq0)]
    linarith
  have hc1 : (2 * (p % q) < q) ↔ ((p % q : ℕ) : ℚ) / q < 1 / 2 := by
    rw [div_lt_iff₀ hq0]
    constructor
    · intro h
      have h' : ((2 * (p % q) : ℕ) : ℚ) < (q : ℚ) := by exact_mod_cast h
      push_cast at h'
      linarith
    · intro h
      have h' : ((2 * (p % q) : ℕ) : ℚ) < (q : ℚ) := by push_cast; linarith
      exact_mod_cast h'
  have hc2 : (q < 2 * (p % q)) ↔ (1 / 2 : ℚ) < ((p % q : ℕ) : ℚ) / q := by
    rw [lt_div_iff₀ hq0]
    constructor
    · intro h
      have h' : (q : ℚ) < ((2 * (p % q) : ℕ) : ℚ) := by exact_mod_cast h
      push_cast at h'
      linarith
    · intro h
      have h' : (q : ℚ) < ((2 * (p % q) : ℕ) : ℚ) := by push_cast; linarith
      exact_mod_cast h'
  rw [pyRound]
  rw [hfloor, show ((((p / q : ℕ) : ℤ)) : ℚ) = ((p / q : ℕ) : ℚ) from Int.cast_natCast _,
    hfrac, natRoundHalfEven]
  by_cases hA : 2 * (p % q) < q
  · rw [if_pos hA, if_pos (hc1.mp hA)]
  · rw [if_neg hA, if_neg (fun h => hA (hc1.mpr h))]
    by_cases hB : q < 2 * (p % q)
    · rw [if_pos hB, if_pos (hc2.mp hB)]
      push_cast
      ring
    · rw [if_neg hB, if_neg (fun h => hB (hc2.mpr h))]
      by_cases hE : p / q % 2 = 0
      · rw [if_pos hE, if_pos (by omega)]
      · rw [if_neg hE, if_neg (by omega)]
        push_cast
        ring

/-- `round` of an exact integer is that integer. -/
theorem pyRound_intCast (z : ℤ) : pyRound ((z : ℤ) : ℚ) = z := by
  rw [pyRound]
  rw [Int.floor_intCast]
  norm_num

/-- Python's `round` of the non-negative double `m · 2^E` is the
banker's rounding of its exact rational value. -/
theorem roundFloatPos_eq_pyRound (m : Nat) (E : Int) :
    ((roundFloatPos m E : ℕ) : ℤ) = pyRound ((m : ℚ) * (2 : ℚ) ^ E) := by
  rw [roundFloatPos]
  by_cases hE : 0 ≤ E
  · rw [if_pos hE]
    have hv : (m : ℚ) * (2 : ℚ) ^ E = (((m * 2 ^ E.toNat : ℕ) : ℤ) : ℚ) := by
      push_cast
      rw [← zpow_natCast (2 : ℚ) E.toNat, Int.toNat_of_nonneg hE]
    rw [hv, pyRound_intCast]
  · rw [if_neg hE]
    have hv : (m : ℚ) * (2 : ℚ) ^ E = (m : ℚ) / ((2 ^ (-E).toNat : ℕ) : ℚ) := by
      rw [div_eq_mul_inv]
      push_cast
      rw [← zpow_natCast (2 : ℚ) (-E).toNat, Int.toNat_of_nonneg (by omega : (0 : ℤ) ≤ -E),
        ← zpow_neg, neg_neg]
    rw [hv, ← natRoundHalfEven_eq_pyRound _ _ (by positivity)]

/-- Banker's rounding is odd: `round(-x) = -round(x)` (ties land on the
even integer on both sides of zero). -/
theorem pyRound_neg (x : ℚ) : pyRound (-x) = -pyRound x := by
  by_cases hz : Int.fract x = 0
  · have hx : x = ((⌊x⌋ : ℤ) : ℚ) := by
      have h := Int.floor_add_fract x
      rw [hz, add_zero] at h
      exact h.symm
    rw [hx, ← Int.cast_neg, pyRound_intCast, pyRound_intCast]
  · have h0 : 0 < Int.fract x := lt_of_le_of_ne (Int.fract_nonneg x) (Ne.symm hz)
    have h1 : Int.fract x < 1 := Int.fract_lt_one x
    have hfr : x - (⌊x⌋ : ℚ) = Int.fract x := (Int.self_sub_floor x)
    have hneg : Int.fract (-x) = 1 - Int.fract x := Int.fract_neg hz
    have hfn : ⌊-x⌋ = -⌊x⌋ - 1 := by
      have e1 : -x - (⌊-x⌋ : ℚ) = 1 - Int.fract x := by
        rw [← hneg]
        exact Int.self_sub_floor (-x)
      have e2 : (⌊-x⌋ : ℚ) = -(⌊x⌋ : ℚ) - 1 := by
        rw [← hfr] at e1
        linarith
      exact_mod_cast e2
    rw [pyRound, pyRound]
    rw [hfn, show ((-⌊x⌋ - 1 : ℤ) : ℚ) = -(⌊x⌋ : ℚ) - 1 from by push_cast; ring,
      show -x - (-(⌊x⌋ : ℚ) - 1) = 1 - (x - (⌊x⌋ : ℚ)) from by ring, hfr]
    rcases lt_trichotomy (Int.fract x) (1 / 2 : ℚ) with h | h | h
    · rw [if_neg (by linarith), if_pos (by linarith), if_pos h]
      omega
    · rw [if_neg (show ¬(1 - Int.fract x < 1 / 2) from by linarith),
        if_neg (show ¬(1 / 2 < 1 - Int.fract x) from by linarith),
        if_neg (show ¬(Int.fract x < 1 / 2) from by linarith),
        if_neg (show ¬(1 / 2 < Int.fract x) from by linarith)]
      by_cases he : ⌊x⌋ % 2 = 0
      · rw [if_pos he, if_neg (by omega)]
        omega
      · rw [if_neg he, if_pos (by omega)]
        omega
    · rw [if_pos (by linarith), if_neg (by linarith), if_pos h]
      omega

/-- The program's percentage is Python's banker's rounding applied to
the exact value of the double that `a / b * 100` evaluates to. -/
theorem pyFloatPercent_eq_pyRound (a b : ℤ) :
    pyFloatPercent a b = pyRound (floatTimes100Val a b) := by
  rw [pyFloatPercent, floatTimes100Val]
  rcases hme : mulPow100 (roundSig53 a.natAbs b.natAbs) with ⟨m, E⟩
  by_cases hs : ((decide (a < 0)).xor (decide (b < 0))) = true
  · rw [if_pos hs, if_pos hs, sigVal]
    dsimp only
    rw [pyRound_neg, roundFloatPos_eq_pyRound]
  · rw [if_neg hs, if_neg hs, sigVal]
    dsimp only
    rw [roundFloatPos_eq_pyRound]

/-- A zero numerator gives percentage 0 (the double `0.0` is exact). -/
theorem pyFloatPercent_zero (b : ℤ) : pyFloatPercent 0 b = 0 := by
  rw [pyFloatPercent]
  rw [show (0 : ℤ).natAbs = 0 from rfl]
  rw [show roundSig53 0 b.natAbs = (0, 0) from by rw [roundSig53]; exact if_pos (Or.inl rfl)]
  rw [show mulPow100 (0, 0) = (0, 0) from rfl, show roundFloatPos 0 0 = 0 from rfl]
  cases hx : (decide ((0 : ℤ) < 0)).xor (decide (b < 0)) <;> simp [hx]

/-- The exact rational `57.5` rounds half-to-even up to 58 — the value
the spec's exact formula `round(100 · 23 / 40)` produces, unlike the
program's float evaluation. -/
theorem pyRound_575 : pyRound (115 / 2 : ℚ) = 58 := by
  have hfl : ⌊(115 / 2 : ℚ)⌋ = 57 := by
    rw [Int.floor_eq_iff]
    constructor <;> norm_num
  rw [pyRound]
  rw [hfl]
  norm_num

/-- C6: `predict_learning_path` fails with the explicit 400-level
"No answers provided" error exactly when the raw input mapping is
entirely empty; a non-empty answers map whose question identifiers are
all unrecognized yields the deterministic degenerate classification
result (dominant Short, zero scores, percentage 0), not a failure. -/
theorem C6_empty_error_unrecognized_ok :
    ∀ (payload : List (PyStr × PyStr)),
      (predictRaw payload = .error ⟨400, "No answers provided".toList⟩ ↔ payload = []) ∧
      (payload ≠ [] →
        (∀ kv ∈ payload, qOptions (pyStrip kv.1) = none) →
        predictRaw payload = .ok degenerateResponse) := by
  intro payload
  have hok : payload ≠ [] →
      (∀ kv ∈ payload, qOptions (pyStrip kv.1) = none) →
      predictRaw payload = .ok degenerateResponse := by
    intro hne hunrec
    have hmapne : ¬(payload.map (fun kv => (kv.1, pyUpper (pyStrip kv.2)))).isEmpty = true := by
      cases payload with
      | nil => exact absurd rfl hne
      | cons kv rest => simp
    rw [predictRaw, if_neg hmapne]
    have hall : ∀ kv ∈ payload.map (fun kv => (kv.1, pyUpper (pyStrip kv.2))),
        qOptions (pyStrip kv.1) = none := by
      intro kv hkv
      rcases List.mem_map.mp hkv with ⟨kv', hkv', rfl⟩
      exact hunrec kv' hkv'
    have hloop := scoreLoop_all_unrecognized _ initAcc hall
    rw [scoreLoop]
    rw [hloop]
    have hdom : dominantCat (⟨0, 0, 0⟩ : Tri Nat) (⟨0, 0, 0⟩ : Tri Nat) = Short := by decide
    simp only [initAcc, hdom]
    rw [degenerateResponse]
    have hpct : pyFloatPercent ((0 : Nat) : Int)
        ((max 1 (fallbackTotal (payload.map (fun kv => (kv.1, pyUpper (pyStrip kv.2))))) : Nat) : Int) = 0 := by
      rw [show (((0 : Nat) : Int)) = (0 : Int) by rfl]
      exact pyFloatPercent_zero _
    simp only [Tri.get, if_true, hpct]
    rfl
  refine ⟨⟨?_, ?_⟩, hok⟩
  · intro h
    by_contra hne
    have hmapne : ¬(payload.map (fun kv => (kv.1, pyUpper (pyStrip kv.2)))).isEmpty = true := by
      cases payload with
      | nil => exact absurd rfl hne
      | cons kv rest => simp
    rw [predictRaw, if_neg hmapne] at h
    exact absurd h (by simp)
  · intro h
    subst h
    rfl

/-- Witness for C6: the map `{zz: A}` is non-empty with an unrecognized
question identifier and yields the degenerate result, not a failure. -/
theorem C6_empty_error_unrecognized_ok_witness :
    predictRaw [("zz".toList, "A".toList)] = .ok degenerateResponse :=
  (C6_empty_error_unrecognized_ok _).2 (by decide) (by decide)

/-- C3 counterexample: at `dominantStyle = "Short"` with coerced scores
`(23, 17, 0)` (sum 40) the program's percentage is 57 — CPython
evaluates `23 / 40 * 100` to the double `57.49999999999999`, just below
the half — while the claim's exact `round(100 · 23 / 40) = round(57.5)`
is 58. -/
theorem C3_counterexample :
    isScoreKey "Short".toList = true ∧
    (23 : Int) + 17 + 0 ≠ 0 ∧
    (assessmentResult "Short".toList ⟨23, 17, 0⟩).percentage = 57 ∧
    pyRound (100 * (scoreGetByName ⟨23, 17, 0⟩ "Short".toList : ℚ) /
      (((23 : Int) + 17 + 0 : Int) : ℚ)) = 58 := by
  refine ⟨by decide, by decide, by decide, ?_⟩
  rw [show scoreGetByName ⟨23, 17, 0⟩ "Short".toList = 23 from by decide]
  rw [show (100 * ((23 : ℤ) : ℚ) / (((23 : Int) + 17 + 0 : Int) : ℚ)) = 115 / 2 from by
    norm_num]
  exact pyRound_575

/-- C3 (amended): the pass-through path returns the submitted
classification with the three scores coerced to integers, and (whenever
the submitted dominant style is one of the three score keys and the
scores do not sum to zero) the returned percentage equals Python's
banker's rounding of the IEEE-754 double evaluation of
`score[dominant] / sum * 100` — which can differ by one from the exact
`round(100 × score[dominant] / sum)` at representation boundaries — the
sum of the three scores being a denominator different from the
fresh-computation path's `total_possible`. -/
theorem C3_passthrough_float_formula :
    ∀ (d : PyStr) (s : Tri Int),
      isScoreKey d = true →
      s.short + s.elaborate + s.realistic ≠ 0 →
      (assessmentResult d s).user_category = d ∧
      (assessmentResult d s).scores = s ∧
      (assessmentResult d s).percentage =
        pyRound (floatTimes100Val (scoreGetByName s d)
          (s.short + s.elaborate + s.realistic)) := by
  intro d s hk hs
  refine ⟨rfl, rfl, ?_⟩
  simp only [assessmentResult, if_neg hs, hk, if_true]
  exact pyFloatPercent_eq_pyRound _ _

/-- Witness for C3 (amended) at `dominantStyle = "Short"`, scores
`(23, 17, 0)` — the counterexample input, now matched by the float-side
formula. -/
theorem C3_passthrough_float_formula_witness :
    (assessmentResult "Short".toList ⟨23, 17, 0⟩).percentage =
      pyRound (floatTimes100Val (scoreGetByName ⟨23, 17, 0⟩ "Short".toList)
        ((23 : Int) + 17 + 0)) :=
  (C3_passthrough_float_formula "Short".toList ⟨23, 17, 0⟩ (by decide) (by decide)).2.2

/-- Python `max` over an explicit two-element value list. -/
theorem listMax2 (a b : Nat) : listMax [a, b] = max a b := by
  simp [listMax, Nat.zero_max]

/-- Python `max` over an explicit three-element value list. -/
theorem listMax3 (a b c : Nat) : listMax [a, b, c] = max (max a b) c := by
  simp [listMax, Nat.zero_max]

/-- C1: in the raw-answers path, the dominant category is chosen by the
exact procedure the spec states: it attains the maximum score; among the
score-tied categories none has a strictly larger answer count; and any
score-tied category with the same answer count sits no earlier in the
fixed priority order [Short, Realistic, Elaborate].  (These three
clauses determine the choice uniquely: a unique maximum wins outright, a
strict count leader among the score-tied wins, and otherwise the first
of the priority order among the remaining tied set is chosen.) -/
theorem C1_dominant_tie_break :
    ∀ (s cnt : Tri Nat),
      IsTopScore s (dominantCat s cnt) ∧
      (∀ c, IsTopScore s c → cnt.get c ≤ cnt.get (dominantCat s cnt)) ∧
      (∀ c, IsTopScore s c → cnt.get c = cnt.get (dominantCat s cnt) →
        priorityIdx (dominantCat s cnt) ≤ priorityIdx c) := by
  intro s cnt
  by_cases hS : s.get Short = listMax (List.map s.get [Short, Elaborate, Realistic]) <;>
    by_cases hE : s.get Elaborate = listMax (List.map s.get [Short, Elaborate, Realistic]) <;>
      by_cases hR : s.get Realistic = listMax (List.map s.get [Short, Elaborate, Realistic])
  · have hw : List.filter (fun c => decide (s.get c = listMax (List.map s.get cats))) cats
        = [Short, Elaborate, Realistic] := by
      simp only [cats, List.filter_cons, List.filter_nil]
      rw [if_pos (decide_eq_true hS), if_pos (decide_eq_true hE), if_pos (decide_eq_true hR)]
    have hmc : listMax (List.map cnt.get [Short, Elaborate, Realistic])
        = max (max (cnt.get Short) (cnt.get Elaborate)) (cnt.get Realistic) := by
      rw [show List.map cnt.get [Short, Elaborate, Realistic]
            = [cnt.get Short, cnt.get Elaborate, cnt.get Realistic] from rfl, listMax3]
    by_cases hcS : cnt.get Short = max (max (cnt.get Short) (cnt.get Elaborate)) (cnt.get Realistic) <;>
      by_cases hcE : cnt.get Elaborate = max (max (cnt.get Short) (cnt.get Elaborate)) (cnt.get Realistic) <;>
        by_cases hcR : cnt.get Realistic = max (max (cnt.get Short) (cnt.get Elaborate)) (cnt.get Realistic)
    · have hd : dominantCat s cnt = Short := by
        simp only [dominantCat, hw]
        rw [hmc]
        have hcw : List.filter
            (fun c => decide (cnt.get c = max (max (cnt.get Short) (cnt.get Elaborate)) (cnt.get Realistic)))
            [Short, Elaborate, Realistic] = [Short, Elaborate, Realistic] := by
          simp only [List.filter_cons, List.filter_nil]
          rw [if_pos (decide_eq_true hcS), if_pos (decide_eq_true hcE), if_pos (decide_eq_true hcR)]
        rw [hcw]
        decide
      rw [hd]
      refine ⟨hS, ?_, ?_⟩
      · intro c hc
        cases c <;> first
          | exact absurd hc hS
          | exact absurd hc hE
          | exact absurd hc hR
          | omega
      · intro c hc hcc
        cases c <;> first
          | exact absurd hc hS
          | exact absurd hc hE
          | exact absurd hc hR
          | decide
          | omega
    · have hd : dominantCat s cnt = Short := by
        simp only [dominantCat, hw]
        rw [hmc]
        have hcw : List.filter
            (fun c => decide (cnt.get c = max (max (cnt.get Short) (cnt.get Elaborate)) (cnt.get Realistic)))
            [Short, Elaborate, Realistic] = [Short, Elaborate] := by
          simp only [List.filter_cons, List.filter_nil]
          rw [if_pos (decide_eq_true hcS), if_pos (decide_eq_true hcE), if_neg (by simpa using hcR)]
        rw [hcw]
        decide
      rw [hd]
      refine ⟨hS, ?_, ?_⟩
      · intro c hc
        cases c <;> first
          | exact absurd hc hS
          | exact absurd hc hE
          | exact absurd hc hR
          | omega
      · intro c hc hcc
        cases c <;> first
          | exact absurd hc hS
          | exact absurd hc hE
          | exact absurd hc hR
          | decide
          | omega
    · have hd : dominantCat s cnt = Short := by
        simp only [dominantCat, hw]
        rw [hmc]
        have hcw : List.filter
            (fun c => decide (cnt.get c = max (max (cnt.get Short) (cnt.get Elaborate)) (cnt.get Realistic)))
            [Short, Elaborate, Realistic] = [Short, Realistic] := by
          simp only [List.filter_cons, List.filter_nil]
          rw [if_pos (decide_eq_true hcS), if_neg (by simpa using hcE), if_pos (decide_eq_true hcR)]
        rw [hcw]
        decide
      rw [hd]
      refine ⟨hS, ?_, ?_⟩
      · intro c hc
        cases c <;> first
          | exact absurd hc hS
          | exact absurd hc hE
          | exact absurd hc hR
          | omega
      · intro c hc hcc
        cases c <;> first
          | exact absurd hc hS
          | exact absurd hc hE
          | exact absurd hc hR
          | decide
          | omega
    · have hd : dominantCat s cnt = Short := by
        simp only [dominantCat, hw]
        rw [hmc]
        have hcw : List.filter
            (fun c => decide (cnt.get c = max (max (cnt.get Short) (cnt.get Elaborate)) (cnt.get Realistic)))
            [Short, Elaborate, Realistic] = [Short] := by
          simp only [List.filter_cons, List.filter_nil]
          rw [if_pos (decide_eq_true hcS), if_neg (by simpa using hcE), if_neg (by simpa using hcR)]
        rw [hcw]
      rw [hd]
      refine ⟨hS, ?_, ?_⟩
      · intro c hc
        cases c <;> first
          | exact absurd hc hS
          | exact absurd hc hE
          | exact absurd hc hR
          | omega
      · intro c hc hcc
        cases c <;> first
          | exact absurd hc hS
          | exact absurd hc hE
          | exact absurd hc hR
          | decide
          | omega
    · have hd : dominantCat s cnt = Realistic := by
        simp only [dominantCat, hw]
        rw [hmc]
        have hcw : List.filter
            (fun c => decide (cnt.get c = max (max (cnt.get Short) (cnt.get Elaborate)) (cnt.get Realistic)))
            [Short, Elaborate, Realistic] = [Elaborate, Realistic] := by
          simp only [List.filter_cons, List.filter_nil]
          rw [if_neg (by simpa using hcS), if_pos (decide_eq_true hcE), if_pos (decide_eq_true hcR)]
        rw [hcw]
        decide
      rw [hd]
      refine ⟨hR, ?_, ?_⟩
      · intro c hc
        cases c <;> first
          | exact absurd hc hS
          | exact absurd hc hE
          | exact absurd hc hR
          | omega
      · intro c hc hcc
        cases c <;> first
          | exact absurd hc hS
          | exact absurd hc hE
          | exact absurd hc hR
          | decide
          | omega
    · have hd : dominantCat s cnt = Elaborate := by
        simp only [dominantCat, hw]
        rw [hmc]
        have hcw : List.filter
            (fun c => decide (cnt.get c = max (max (cnt.get Short) (cnt.get Elaborate)) (cnt.get Realistic)))
            [Short, Elaborate, Realistic] = [Elaborate] := by
          simp only [List.filter_cons, List.filter_nil]
          rw [if_neg (by simpa using hcS), if_pos (decide_eq_true hcE), if_neg (by simpa using hcR)]
        rw [hcw]
      rw [hd]
      refine ⟨hE, ?_, ?_⟩
      · intro c hc
        cases c <;> first
          | exact absurd hc hS
          | exact absurd hc hE
          | exact absurd hc hR
          | omega
      · intro c hc hcc
        cases c <;> first
          | exact absurd hc hS
          | exact absurd hc hE
          | exact absurd hc hR
          | decide
          | omega
    · have hd : dominantCat s cnt = Realistic := by
        simp only [dominantCat, hw]
        rw [hmc]
        have hcw : List.filter
            (fun c => decide (cnt.get c = max (max (cnt.get Short) (cnt.get Elaborate)) (cnt.get Realistic)))
            [Short, Elaborate, Realistic] = [Realistic] := by
          simp only [List.filter_cons, List.filter_nil]
          rw [if_neg (by simpa using hcS), if_neg (by simpa using hcE), if_pos (decide_eq_true hcR)]
        rw [hcw]
      rw [hd]
      refine ⟨hR, ?_, ?_⟩
      · intro c hc
        cases c <;> first
          | exact absurd hc hS
          | exact absurd hc hE
          | exact absurd hc hR
          | omega
      · intro c hc hcc
        cases c <;> first
          | exact absurd hc hS
          | exact absurd hc hE
          | exact absurd hc hR
          | decide
          | omega
    · exfalso
      omega
  · have hw : List.filter (fun c => decide (s.get c = listMax (List.map s.get cats))) cats
        = [Short, Elaborate] := by
      simp only [cats, List.filter_cons, List.filter_nil]
      rw [if_pos (decide_eq_true hS), if_pos (decide_eq_true hE), if_neg (by simpa using hR)]
    have hmc : listMax (List.map cnt.get [Short, Elaborate])
        = max (cnt.get Short) (cnt.get Elaborate) := by
      rw [show List.map cnt.get [Short, Elaborate] = [cnt.get Short, cnt.get Elaborate] from rfl, listMax2]
    by_cases hgt : cnt.get Elaborate < cnt.get Short
    · have hd : dominantCat s cnt = Short := by
        simp only [dominantCat, hw]
        rw [hmc]
        have hcw : List.filter
            (fun c => decide (cnt.get c = max (cnt.get Short) (cnt.get Elaborate)))
            [Short, Elaborate] = [Short] := by
          simp only [List.filter_cons, List.filter_nil]
          rw [if_pos (decide_eq_true (by omega : cnt.get Short = max (cnt.get Short) (cnt.get Elaborate))),
              if_neg (by simp only [decide_eq_true_eq]; omega)]
        rw [hcw]
      rw [hd]
      refine ⟨hS, ?_, ?_⟩
      · intro c hc
        cases c <;> first
          | exact absurd hc hS
          | exact absurd hc hE
          | exact absurd hc hR
          | omega
      · intro c hc hcc
        cases c <;> first
          | exact absurd hc hS
          | exact absurd hc hE
          | exact absurd hc hR
          | decide
          | omega
    · by_cases hlt : cnt.get Short < cnt.get Elaborate
      · have hd : dominantCat s cnt = Elaborate := by
          simp only [dominantCat, hw]
          rw [hmc]
          have hcw : List.filter
              (fun c => decide (cnt.get c = max (cnt.get Short) (cnt.get Elaborate)))
              [Short, Elaborate] = [Elaborate] := by
            simp only [List.filter_cons, List.filter_nil]
            rw [if_neg (by simp only [decide_eq_true_eq]; omega),
                if_pos (decide_eq_true (by omega : cnt.get Elaborate = max (cnt.get Short) (cnt.get Elaborate)))]
          rw [hcw]
        rw [hd]
        refine ⟨hE, ?_, ?_⟩
        · intro c hc
          cases c <;> first
            | exact absurd hc hS
            | exact absurd hc hE
            | exact absurd hc hR
            | omega
        · intro c hc hcc
          cases c <;> first
            | exact absurd hc hS
            | exact absurd hc hE
            | exact absurd hc hR
            | decide
            | omega
      · have hd : dominantCat s cnt = Short := by
          simp only [dominantCat, hw]
          rw [hmc]
          have hcw : List.filter
              (fun c => decide (cnt.get c = max (cnt.get Short) (cnt.get Elaborate)))
              [Short, Elaborate] = [Short, Elaborate] := by
            simp only [List.filter_cons, List.filter_nil]
            rw [if_pos (decide_eq_true (by omega : cnt.get Short = max (cnt.get Short) (cnt.get Elaborate))),
                if_pos (decide_eq_true (by omega : cnt.get Elaborate = max (cnt.get Short) (cnt.get Elaborate)))]
          rw [hcw]
          decide
        rw [hd]
        refine ⟨hS, ?_, ?_⟩
        · intro c hc
          cases c <;> first
            | exact absurd hc hS
            | exact absurd hc hE
            | exact absurd hc hR
            | omega
        · intro c hc hcc
          cases c <;> first
            | exact absurd hc hS
            | exact absurd hc hE
            | exact absurd hc hR
            | decide
            | omega
  · have hw : List.filter (fun c => decide (s.get c = listMax (List.map s.get cats))) cats
        = [Short, Realistic] := by
      simp only [cats, List.filter_cons, List.filter_nil]
      rw [if_pos (decide_eq_true hS), if_neg (by simpa using hE), if_pos (decide_eq_true hR)]
    have hmc : listMax (List.map cnt.get [Short, Realistic])
        = max (cnt.get Short) (cnt.get Realistic) := by
      rw [show List.map cnt.get [Short, Realistic] = [cnt.get Short, cnt.get Realistic] from rfl, listMax2]
    by_cases hgt : cnt.get Realistic < cnt.get Short
    · have hd : dominantCat s cnt = Short := by
        simp only [dominantCat, hw]
        rw [hmc]
        have hcw : List.filter
            (fun c => decide (cnt.get c = max (cnt.get Short) (cnt.get Realistic)))
            [Short, Realistic] = [Short] := by
          simp only [List.filter_cons, List.filter_nil]
          rw [if_pos (decide_eq_true (by omega : cnt.get Short = max (cnt.get Short) (cnt.get Realistic))),
              if_neg (by simp only [decide_eq_true_eq]; omega)]
        rw [hcw]
      rw [hd]
      refine ⟨hS, ?_, ?_⟩
      · intro c hc
        cases c <;> first
          | exact absurd hc hS
          | exact absurd hc hE
          | exact absurd hc hR
          | omega
      · intro c hc hcc
        cases c <;> first
          | exact absurd hc hS
          | exact absurd hc hE
          | exact absurd hc hR
          | decide
          | omega
    · by_cases hlt : cnt.get Short < cnt.get Realistic
      · have hd : dominantCat s cnt = Realistic := by
          simp only [dominantCat, hw]
          rw [hmc]
          have hcw : List.filter
              (fun c => decide (cnt.get c = max (cnt.get Short) (cnt.get Realistic)))
              [Short, Realistic] = [Realistic] := by
            simp only [List.filter_cons, List.filter_nil]
            rw [if_neg (by simp only [decide_eq_true_eq]; omega),
                if_pos (decide_eq_true (by omega : cnt.get Realistic = max (cnt.get Short) (cnt.get Realistic)))]
          rw [hcw]
        rw [hd]
        refine ⟨hR, ?_, ?_⟩
        · intro c hc
          cases c <;> first
            | exact absurd hc hS
            | exact absurd hc hE
            | exact absurd hc hR
            | omega
        · intro c hc hcc
          cases c <;> first
            | exact absurd hc hS
            | exact absurd hc hE
            | exact absurd hc hR
            | decide
            | omega
      · have hd : dominantCat s cnt = Short := by
          simp only [dominantCat, hw]
          rw [hmc]
          have hcw : List.filter
              (fun c => decide (cnt.get c = max (cnt.get Short) (cnt.get Realistic)))
              [Short, Realistic] = [Short, Realistic] := by
            simp only [List.filter_cons, List.filter_nil]
            rw [if_pos (decide_eq_true (by omega : cnt.get Short = max (cnt.get Short) (cnt.get Realistic))),
                if_pos (decide_eq_true (by omega : cnt.get Realistic = max (cnt.get Short) (cnt.get Realistic)))]
          rw [hcw]
          decide
        rw [hd]
        refine ⟨hS, ?_, ?_⟩
        · intro c hc
          cases c <;> first
            | exact absurd hc hS
            | exact absurd hc hE
            | exact absurd hc hR
            | omega
        · intro c hc hcc
          cases c <;> first
            | exact absurd hc hS
            | exact absurd hc hE
            | exact absurd hc hR
            | decide
            | omega
  · have hw : List.filter (fun c => decide (s.get c = listMax (List.map s.get cats))) cats
        = [Short] := by
      simp only [cats, List.filter_cons, List.filter_nil]
      rw [if_pos (decide_eq_true hS), if_neg (by simpa using hE), if_neg (by simpa using hR)]
    have hd : dominantCat s cnt = Short := by
      simp only [dominantCat, hw]
    rw [hd]
    refine ⟨hS, ?_, ?_⟩
    · intro c hc
      cases c <;> first
        | exact absurd hc hS
        | exact absurd hc hE
        | exact absurd hc hR
        | omega
    · intro c hc hcc
      cases c <;> first
        | exact absurd hc hS
        | exact absurd hc hE
        | exact absurd hc hR
        | decide
        | omega
  · have hw : List.filter (fun c => decide (s.get c = listMax (List.map s.get cats))) cats
        = [Elaborate, Realistic] := by
      simp only [cats, List.filter_cons, List.filter_nil]
      rw [if_neg (by simpa using hS), if_pos (decide_eq_true hE), if_pos (decide_eq_true hR)]
    have hmc : listMax (List.map cnt.get [Elaborate, Realistic])
        = max (cnt.get Elaborate) (cnt.get Realistic) := by
      rw [show List.map cnt.get [Elaborate, Realistic] = [cnt.get Elaborate, cnt.get Realistic] from rfl, listMax2]
    by_cases hgt : cnt.get Realistic < cnt.get Elaborate
    · have hd : dominantCat s cnt = Elaborate := by
        simp only [dominantCat, hw]
        rw [hmc]
        have hcw : List.filter
            (fun c => decide (cnt.get c = max (cnt.get Elaborate) (cnt.get Realistic)))
            [Elaborate, Realistic] = [Elaborate] := by
          simp only [List.filter_cons, List.filter_nil]
          rw [if_pos (decide_eq_true (by omega : cnt.get Elaborate = max (cnt.get Elaborate) (cnt.get Realistic))),
              if_neg (by simp only [decide_eq_true_eq]; omega)]
        rw [hcw]
      rw [hd]
      refine ⟨hE, ?_, ?_⟩
      · intro c hc
        cases c <;> first
          | exact absurd hc hS
          | exact absurd hc hE
          | exact absurd hc hR
          | omega
      · intro c hc hcc
        cases c <;> first
          | exact absurd hc hS
          | exact absurd hc hE
          | exact absurd hc hR
          | decide
          | omega
    · by_cases hlt : cnt.get Elaborate < cnt.get Realistic
      · have hd : dominantCat s cnt = Realistic := by
          simp only [dominantCat, hw]
          rw [hmc]
          have hcw : List.filter
              (fun c => decide (cnt.get c = max (cnt.get Elaborate) (cnt.get Realistic)))
              [Elaborate, Realistic] = [Realistic] := by
            simp only [List.filter_cons, List.filter_nil]
            rw [if_neg (by simp only [decide_eq_true_eq]; omega),
                if_pos (decide_eq_true (by omega : cnt.get Realistic = max (cnt.get Elaborate) (cnt.get Realistic)))]
          rw [hcw]
        rw [hd]
        refine ⟨hR, ?_, ?_⟩
        · intro c hc
          cases c <;> first
            | exact absurd hc hS
            | exact absurd hc hE
            | exact absurd hc hR
            | omega
        · intro c hc hcc
          cases c <;> first
            | exact absurd hc hS
            | exact absurd hc hE
            | exact absurd hc hR
            | decide
            | omega
      · have hd : dominantCat s cnt = Realistic := by
          simp only [dominantCat, hw]
          rw [hmc]
          have hcw : List.filter
              (fun c => decide (cnt.get c = max (cnt.get Elaborate) (cnt.get Realistic)))
              [Elaborate, Realistic] = [Elaborate, Realistic] := by
            simp only [List.filter_cons, List.filter_nil]
            rw [if_pos (decide_eq_true (by omega : cnt.get Elaborate = max (cnt.get Elaborate) (cnt.get Realistic))),
                if_pos (decide_eq_true (by omega : cnt.get Realistic = max (cnt.get Elaborate) (cnt.get Realistic)))]
          rw [hcw]
          decide
        rw [hd]
        refine ⟨hR, ?_, ?_⟩
        · intro c hc
          cases c <;> first
            | exact absurd hc hS
            | exact absurd hc hE
            | exact absurd hc hR
            | omega
        · intro c hc hcc
          cases c <;> first
            | exact absurd hc hS
            | exact absurd hc hE
            | exact absurd hc hR
            | decide
            | omega
  · have hw : List.filter (fun c => decide (s.get c = listMax (List.map s.get cats))) cats
        = [Elaborate] := by
      simp only [cats, List.filter_cons, List.filter_nil]
      rw [if_neg (by simpa using hS), if_pos (decide_eq_true hE), if_neg (by simpa using hR)]
    have hd : dominantCat s cnt = Elaborate := by
      simp only [dominantCat, hw]
    rw [hd]
    refine ⟨hE, ?_, ?_⟩
    · intro c hc
      cases c <;> first
        | exact absurd hc hS
        | exact absurd hc hE
        | exact absurd hc hR
        | omega
    · intro c hc hcc
      cases c <;> first
        | exact absurd hc hS
        | exact absurd hc hE
        | exact absurd hc hR
        | decide
        | omega
  · have hw : List.filter (fun c => decide (s.get c = listMax (List.map s.get cats))) cats
        = [Realistic] := by
      simp only [cats, List.filter_cons, List.filter_nil]
      rw [if_neg (by simpa using hS), if_neg (by simpa using hE), if_pos (decide_eq_true hR)]
    have hd : dominantCat s cnt = Realistic := by
      simp only [dominantCat, hw]
    rw [hd]
    refine ⟨hR, ?_, ?_⟩
    · intro c hc
      cases c <;> first
        | exact absurd hc hS
        | exact absurd hc hE
        | exact absurd hc hR
        | omega
    · intro c hc hcc
      cases c <;> first
        | exact absurd hc hS
        | exact absurd hc hE
        | exact absurd hc hR
        | decide
        | omega
  · exfalso
    have hM : listMax (List.map s.get [Short, Elaborate, Realistic])
        = max (max s.short s.elaborate) s.realistic := by
      rw [show List.map s.get [Short, Elaborate, Realistic]
            = [s.short, s.elaborate, s.realistic] from rfl, listMax3]
    simp only [Tri.get] at hS hE hR
    rw [hM] at hS hE hR
    omega


/-- Witness for C1 at scores (2, 2, 0) and counts (1, 2, 0): Short and
Elaborate tie on score and Elaborate has the larger count, so no
score-tied category's count exceeds the dominant one's. -/
theorem C1_dominant_tie_break_witness :
    (⟨1, 2, 0⟩ : Tri Nat).get Cat.Short ≤
      (⟨1, 2, 0⟩ : Tri Nat).get (dominantCat ⟨2, 2, 0⟩ ⟨1, 2, 0⟩) :=
  (C1_dominant_tie_break ⟨2, 2, 0⟩ ⟨1, 2, 0⟩).2.1 Cat.Short
    (by unfold IsTopScore maxScoreVal; decide)

/-- Characters with equal code points are equal. -/
theorem char_toNat_inj {a b : Char} (h : a.toNat = b.toNat) : a = b :=
  Char.ext (UInt32.ext h)

/-- `Char.ofNat` of a valid scalar value round-trips through `toNat`. -/
theorem toNat_ofNat_valid (n : Nat) (h : n.isValidChar) : (Char.ofNat n).toNat = n := by
  unfold Char.ofNat
  rw [dif_pos h]
  rfl

/-- The code point produced by `str.upper` on one character. -/
theorem pyUpperChar_toNat (c : Char) :
    (pyUpperChar c).toNat =
      if 97 ≤ c.toNat ∧ c.toNat ≤ 122 then c.toNat - 32 else c.toNat := by
  unfold pyUpperChar
  split
  · exact toNat_ofNat_valid _ (Or.inl (by omega))
  · rfl

/-- Membership view of the whitespace test. -/
theorem isPySpace_iff_toNat (c : Char) :
    isPySpace c = true ↔ c.toNat ∈ ([32, 9, 10, 13, 11, 12] : List Nat) := by
  unfold isPySpace
  constructor
  · intro h
    simp only [Bool.or_eq_true, decide_eq_true_eq] at h
    rcases h with ((((h | h) | h) | h) | h) | h <;> subst h <;> decide
  · intro h
    simp only [List.mem_cons, List.not_mem_nil, or_false] at h
    simp only [Bool.or_eq_true, decide_eq_true_eq]
    rcases h with h | h | h | h | h | h
    · exact Or.inl (Or.inl (Or.inl (Or.inl (Or.inl (char_toNat_inj (by rw [h]; rfl))))))
    · exact Or.inl (Or.inl (Or.inl (Or.inl (Or.inr (char_toNat_inj (by rw [h]; rfl))))))
    · exact Or.inl (Or.inl (Or.inl (Or.inr (char_toNat_inj (by rw [h]; rfl)))))
    · exact Or.inl (Or.inl (Or.inr (char_toNat_inj (by rw [h]; rfl))))
    · exact Or.inl (Or.inr (char_toNat_inj (by rw [h]; rfl)))
    · exact Or.inr (char_toNat_inj (by rw [h]; rfl))

/-- Upper-casing maps whitespace to whitespace and non-whitespace to
non-whitespace. -/
theorem isPySpace_pyUpperChar (c : Char) : isPySpace (pyUpperChar c) = isPySpace c := by
  by_cases h : 97 ≤ c.toNat ∧ c.toNat ≤ 122
  · have ht : (pyUpperChar c).toNat = c.toNat - 32 := by rw [pyUpperChar_toNat, if_pos h]
    have e1 : isPySpace (pyUpperChar c) = false := by
      rw [Bool.eq_false_iff]
      intro hx
      have hm := (isPySpace_iff_toNat _).mp hx
      rw [ht] at hm
      simp only [List.mem_cons, List.not_mem_nil, or_false] at hm
      omega
    have e2 : isPySpace c = false := by
      rw [Bool.eq_false_iff]
      intro hx
      have hm := (isPySpace_iff_toNat _).mp hx
      simp only [List.mem_cons, List.not_mem_nil, or_false] at hm
      omega
    rw [e1, e2]
  · have he : pyUpperChar c = c := char_toNat_inj (by rw [pyUpperChar_toNat, if_neg h])
    rw [he]

/-- `str.upper` is idempotent on one character. -/
theorem pyUpperChar_idem (c : Char) : pyUpperChar (pyUpperChar c) = pyUpperChar c := by
  by_cases h : 97 ≤ c.toNat ∧ c.toNat ≤ 122
  · have ht : (pyUpperChar c).toNat = c.toNat - 32 := by rw [pyUpperChar_toNat, if_pos h]
    apply char_toNat_inj
    rw [pyUpperChar_toNat, if_neg (by omega)]
  · have he : pyUpperChar c = c := char_toNat_inj (by rw [pyUpperChar_toNat, if_neg h])
    rw [he, he]

/-- `str.upper` is idempotent. -/
theorem pyUpper_idem (s : PyStr) : pyUpper (pyUpper s) = pyUpper s := by
  unfold pyUpper
  rw [List.map_map]
  exact List.map_congr_left (fun c _ => pyUpperChar_idem c)

/-- `strip` and `upper` commute. -/
theorem pyStrip_pyUpper_comm (s : PyStr) : pyStrip (pyUpper s) = pyUpper (pyStrip s) := by
  unfold pyStrip pyUpper
  have hcomp : (isPySpace ∘ pyUpperChar) = isPySpace := funext isPySpace_pyUpperChar
  rw [List.dropWhile_map, hcomp, ← List.map_reverse, List.dropWhile_map, hcomp,
      ← List.map_reverse]

/-- The head left by `dropWhile` fails the predicate. -/
theorem dropWhile_head_false {α : Type} {p : α → Bool} :
    ∀ (l : List α) (a : α) (rest : List α), List.dropWhile p l = a :: rest → p a = false := by
  intro l
  induction l with
  | nil =>
    intro a rest h
    simp [List.dropWhile] at h
  | cons x xs ih =>
    intro a rest h
    rw [List.dropWhile_cons] at h
    by_cases hx : p x
    · rw [if_pos hx] at h
      exact ih a rest h
    · rw [if_neg hx] at h
      cases h
      simpa using hx

/-- `str.strip` is idempotent. -/
theorem pyStrip_idem (s : PyStr) : pyStrip (pyStrip s) = pyStrip s := by
  have hps : ∀ t : PyStr, pyStrip t = List.rdropWhile isPySpace (List.dropWhile isPySpace t) :=
    fun t => rfl
  rw [hps, hps]
  have hdrop : List.dropWhile isPySpace
      (List.rdropWhile isPySpace (List.dropWhile isPySpace s)) =
      List.rdropWhile isPySpace (List.dropWhile isPySpace s) := by
    rcases hA : List.rdropWhile isPySpace (List.dropWhile isPySpace s) with _ | ⟨a, as⟩
    · simp
    · obtain ⟨t, ht⟩ := List.rdropWhile_prefix isPySpace (List.dropWhile isPySpace s)
      rw [hA] at ht
      have hpa : isPySpace a = false := by
        apply dropWhile_head_false s a (as ++ t)
        rw [← ht]
        rfl
      rw [List.dropWhile_cons_of_neg (by simp [hpa])]
  rw [hdrop, List.rdropWhile_idempotent]


/-- The handler's value normalization `strip` then `upper` is
idempotent. -/
theorem normVal_idem (v : PyStr) :
    pyUpper (pyStrip (pyUpper (pyStrip v))) = pyUpper (pyStrip v) := by
  rw [pyStrip_pyUpper_comm, pyStrip_idem, pyUpper_idem]

/-- C10: in the raw-answers path the classification result is invariant
under the letter case and surrounding whitespace of the answer option
values: the result is a function of the value-normalized map (values
trimmed and upper-cased before the weight-table lookup), so replacing
any value by its trimmed upper-case form yields the identical result. -/
theorem C10_normalization_invariance :
    (∀ (p q : List (PyStr × PyStr)),
        p.map (fun kv => (kv.1, pyUpper (pyStrip kv.2))) =
          q.map (fun kv => (kv.1, pyUpper (pyStrip kv.2))) →
        predictRaw p = predictRaw q) ∧
    (∀ (p : List (PyStr × PyStr)),
        predictRaw (p.map (fun kv => (kv.1, pyUpper (pyStrip kv.2)))) = predictRaw p) := by
  have main : ∀ (p q : List (PyStr × PyStr)),
      p.map (fun kv => (kv.1, pyUpper (pyStrip kv.2))) =
        q.map (fun kv => (kv.1, pyUpper (pyStrip kv.2))) →
      predictRaw p = predictRaw q := by
    intro p q h
    simp only [predictRaw]
    rw [h]
  refine ⟨main, fun p => main _ _ ?_⟩
  rw [List.map_map]
  apply List.map_congr_left
  intro kv _
  simp only [Function.comp]
  rw [normVal_idem]

/-- Witness for C10: answering `" a "` and `"A"` to q1 give identical
results. -/
theorem C10_normalization_invariance_witness :
    predictRaw [("q1".toList, " a ".toList)] = predictRaw [("q1".toList, "A".toList)] :=
  C10_normalization_invariance.1 _ _ (by decide)

set_option maxHeartbeats 1000000 in
/-- Any weight returned by a recognized (question, answer) lookup is at
most that question's maximal option weight. -/
theorem optLookup_weight_le (key a : PyStr) (opts : List (PyStr × Cat × Nat)) (c : Cat) (w : Nat)
    (hq : qOptions key = some opts) (hl : optLookup a opts = some (c, w)) :
    w ≤ maxOptWeight opts := by
  unfold qOptions at hq
  split_ifs at hq <;> injection hq with hq <;> subst hq <;>
    (simp only [optLookup] at hl
     split_ifs at hl <;> injection hl with hl <;>
       (injection hl with h1 h2
        subst h1
        subst h2
        decide))

/-- Loop invariant of the scoring loop: every category score stays
bounded by `total_possible`, since each recognized pair adds `w` to one
score and the question's maximal weight (≥ w) to `total_possible`. -/
theorem scores_le_total (l : List (PyStr × PyStr)) :
    ∀ (acc : ScoreAcc) (c : Cat),
      acc.scores.get c ≤ acc.totalPossible →
      (l.foldl scoreStep acc).scores.get c ≤ (l.foldl scoreStep acc).totalPossible := by
  induction l with
  | nil => intro acc c h; exact h
  | cons kv rest ih =>
    intro acc c h
    rw [List.foldl_cons]
    apply ih
    unfold scoreStep
    rcases hq : qOptions (pyStrip kv.1) with _ | opts <;> simp only [hq]
    · exact h
    · rcases hl : optLookup (pyUpper (pyStrip kv.2)) opts with _ | ⟨cat, w⟩ <;> simp only [hl]
      · exact h
      · have hw := optLookup_weight_le _ _ _ _ _ hq hl
        cases c <;> cases cat <;>
          simp_all [Tri.get, Tri.set] <;> omega


/-- The fuel-driven floor log is a lower bound: `2^⌊log₂ n⌋ ≤ n`. -/
theorem natLog2F_le : ∀ (fuel n : Nat), 0 < n → n ≤ fuel → 2 ^ natLog2F fuel n ≤ n := by
  intro fuel
  induction fuel with
  | zero => intro n hn hf; omega
  | succ f ih =>
    intro n hn hf
    by_cases h2 : 2 ≤ n
    · rw [natLog2F, if_pos h2]
      have hrec := ih (n / 2) (by omega) (by omega)
      rw [pow_succ]
      omega
    · rw [natLog2F, if_neg h2]
      simpa using hn

/-- The fuel-driven floor log is tight: `n < 2^(⌊log₂ n⌋ + 1)`. -/
theorem natLog2F_lt : ∀ (fuel n : Nat), n ≤ fuel → n < 2 ^ (natLog2F fuel n + 1) := by
  intro fuel
  induction fuel with
  | zero =>
    intro n hf
    have hn : n = 0 := by omega
    subst hn
    simp [natLog2F]
  | succ f ih =>
    intro n hf
    by_cases h2 : 2 ≤ n
    · rw [natLog2F, if_pos h2]
      have hrec := ih (n / 2) (by omega)
      rw [pow_succ]
      omega
    · rw [natLog2F, if_neg h2]
      simp only [zero_add, pow_one]
      omega

/-- The computed binary exponent never overshoots the value:
`2^⌊log₂(n/d)⌋ ≤ n/d`. -/
theorem ratLog2Floor_le (n d : Nat) (hn : 0 < n) (hd : 0 < d) :
    (2 : ℚ) ^ ratLog2Floor n d ≤ (n : ℚ) / d := by
  have hd0 : (0 : ℚ) < (d : ℚ) := by exact_mod_cast hd
  rw [ratLog2Floor]
  by_cases hdn : d ≤ n
  · rw [if_pos hdn, zpow_natCast]
    have h1 : 2 ^ natLog2F n (n / d) ≤ n / d :=
      natLog2F_le n (n / d) ((Nat.one_le_div_iff hd).mpr hdn) (Nat.div_le_self n d)
    have h2 : ((n / d : ℕ) : ℚ) ≤ (n : ℚ) / d := by
      rw [le_div_iff₀ hd0]
      exact_mod_cast Nat.div_mul_le_self n d
    calc ((2 : ℚ) ^ natLog2F n (n / d)) = ((2 ^ natLog2F n (n / d) : ℕ) : ℚ) := by
          push_cast
          ring
      _ ≤ ((n / d : ℕ) : ℚ) := by exact_mod_cast h1
      _ ≤ (n : ℚ) / d := h2
  · rw [if_neg hdn]
    dsimp only
    have hA : 2 ^ natLog2F n n ≤ n := natLog2F_le n n hn le_rfl
    have hB : d < 2 ^ (natLog2F d d + 1) := natLog2F_lt d d le_rfl
    have hmono : natLog2F n n ≤ natLog2F d d := by
      by_contra hcon
      push_neg at hcon
      have h1 : 2 ^ (natLog2F d d + 1) ≤ 2 ^ natLog2F n n :=
        Nat.pow_le_pow_right (by omega) (by omega)
      omega
    by_cases htest : d ≤ n * 2 ^ (natLog2F d d - natLog2F n n)
    · rw [if_pos htest, zpow_neg, zpow_natCast, inv_eq_one_div,
        div_le_div_iff (by positivity) hd0, one_mul]
      calc (d : ℚ) ≤ ((n * 2 ^ (natLog2F d d - natLog2F n n) : ℕ) : ℚ) := by
            exact_mod_cast htest
        _ = (n : ℚ) * 2 ^ (natLog2F d d - natLog2F n n) := by
            push_cast
            ring
    · rw [if_neg htest]
      have hstep : 2 ^ natLog2F n n * 2 ^ (natLog2F d d - natLog2F n n + 1)
          = 2 ^ (natLog2F d d + 1) := by
        rw [← pow_add]
        congr 1
        omega
      have hkey : d ≤ n * 2 ^ (natLog2F d d - natLog2F n n + 1) := by
        have h3 : 2 ^ natLog2F n n * 2 ^ (natLog2F d d - natLog2F n n + 1)
            ≤ n * 2 ^ (natLog2F d d - natLog2F n n + 1) :=
          Nat.mul_le_mul_right _ hA
        rw [hstep] at h3
        omega
      rw [show (-(((natLog2F d d - natLog2F n n : ℕ) : ℤ) + 1))
          = -(((natLog2F d d - natLog2F n n + 1 : ℕ) : ℤ)) from by push_cast; ring,
        zpow_neg, zpow_natCast, inv_eq_one_div, div_le_div_iff (by positivity) hd0, one_mul]
      calc (d : ℚ) ≤ ((n * 2 ^ (natLog2F d d - natLog2F n n + 1) : ℕ) : ℚ) := by
            exact_mod_cast hkey
        _ = (n : ℚ) * 2 ^ (natLog2F d d - natLog2F n n + 1) := by
            push_cast
            ring

/-- Rounding half to even moves the fraction up by at most a half. -/
theorem natRoundHalfEven_le (p q : Nat) (hq : 0 < q) :
    ((natRoundHalfEven p q : ℕ) : ℚ) ≤ (p : ℚ) / q + 1 / 2 := by
  have hq0 : (0 : ℚ) < (q : ℚ) := by exact_mod_cast hq
  have hdm : q * (p / q) + p % q = p := Nat.div_add_mod p q
  have hdmQ : (q : ℚ) * ((p / q : ℕ) : ℚ) + ((p % q : ℕ) : ℚ) = (p : ℚ) := by
    exact_mod_cast congrArg (Nat.cast : ℕ → ℚ) hdm
  have hfq : ((p / q : ℕ) : ℚ) = (p : ℚ) / q - ((p % q : ℕ) : ℚ) / q := by
    field_simp
    linarith
  rw [natRoundHalfEven]
  by_cases hA : 2 * (p % q) < q
  · rw [if_pos hA]
    have hr : (0 : ℚ) ≤ ((p % q : ℕ) : ℚ) / q := by positivity
    rw [hfq]
    linarith
  · rw [if_neg hA]
    have hA' : q ≤ 2 * (p % q) := by omega
    have hrge : (q : ℚ) ≤ 2 * ((p % q : ℕ) : ℚ) := by exact_mod_cast hA'
    have hhalf : (1 : ℚ) / 2 ≤ ((p % q : ℕ) : ℚ) / q := by
      rw [div_le_div_iff (by norm_num) hq0]
      linarith
    have hgoal : ((p / q : ℕ) : ℚ) + 1 ≤ (p : ℚ) / q + 1 / 2 := by
      rw [hfq]
      linarith
    by_cases hB : q < 2 * (p % q)
    · rw [if_pos hB]
      push_cast
      push_cast at hgoal
      linarith
    · rw [if_neg hB]
      by_cases hE : p / q % 2 = 0
      · rw [if_pos hE]
        have hr : (0 : ℚ) ≤ ((p % q : ℕ) : ℚ) / q := by positivity
        rw [hfq]
        linarith
      · rw [if_neg hE]
        push_cast
        push_cast at hgoal
        linarith

/-- The rounded binary64 significand–exponent pair overestimates the
exact quotient by at most one part in `2^53` (half an ulp). -/
theorem roundSig53_le (n d : Nat) (hn : 0 < n) (hd : 0 < d) :
    sigVal (roundSig53 n d) ≤ ((n : ℚ) / d) * (1 + 1 / 2 ^ 53) := by
  have hd0 : (0 : ℚ) < (d : ℚ) := by exact_mod_cast hd
  have hn0 : (0 : ℚ) < (n : ℚ) := by exact_mod_cast hn
  have hnd : (0 : ℚ) < (n : ℚ) / d := by positivity
  have hL := ratLog2Floor_le n d hn hd
  rw [roundSig53, if_neg (by omega : ¬(n = 0 ∨ d = 0))]
  set L := ratLog2Floor n d with hLdef
  set M := (if 0 ≤ 52 - L then natRoundHalfEven (n * 2 ^ (52 - L).toNat) d
            else natRoundHalfEven n (d * 2 ^ (-(52 - L)).toNat)) with hMdef
  have hT : (0 : ℚ) < (2 : ℚ) ^ (L - 52) := by positivity
  have hMle : (M : ℚ) ≤ ((n : ℚ) / d) * 2 ^ (52 - L) + 1 / 2 := by
    rw [hMdef]
    by_cases hsh : 0 ≤ 52 - L
    · rw [if_pos hsh]
      have h1 := natRoundHalfEven_le (n * 2 ^ (52 - L).toNat) d hd
      have h2 : ((n * 2 ^ (52 - L).toNat : ℕ) : ℚ) / d = ((n : ℚ) / d) * 2 ^ (52 - L) := by
        push_cast
        rw [← zpow_natCast (2 : ℚ) (52 - L).toNat, Int.toNat_of_nonneg hsh]
        ring
      rw [h2] at h1
      exact h1
    · rw [if_neg hsh]
      have hk : 0 < d * 2 ^ (-(52 - L)).toNat := by positivity
      have h1 := natRoundHalfEven_le n (d * 2 ^ (-(52 - L)).toNat) hk
      have h2 : (n : ℚ) / ((d * 2 ^ (-(52 - L)).toNat : ℕ) : ℚ)
          = ((n : ℚ) / d) * 2 ^ (52 - L) := by
        push_cast
        rw [← zpow_natCast (2 : ℚ) (-(52 - L)).toNat,
          Int.toNat_of_nonneg (by omega : (0 : ℤ) ≤ -(52 - L)), zpow_neg]
        have hz : ((2 : ℚ) ^ (52 - L)) ≠ 0 := zpow_ne_zero _ (by norm_num)
        field_simp
      rw [h2] at h1
      exact h1
  have hval : sigVal (if M = 2 ^ 53 then ((2 ^ 52 : ℕ), L - 51) else (M, L - 52))
      = (M : ℚ) * 2 ^ (L - 52) := by
    by_cases hM53 : M = 2 ^ 53
    · rw [if_pos hM53, hM53, sigVal]
      rw [show (L - 51 : ℤ) = (L - 52) + 1 from by ring,
        zpow_add_one₀ (by norm_num : (2 : ℚ) ≠ 0)]
      push_cast
      ring
    · rw [if_neg hM53, sigVal]
  rw [hval]
  have hVT : (2 : ℚ) ^ (52 - L) * (2 : ℚ) ^ (L - 52) = 1 := by
    rw [← zpow_add₀ (by norm_num : (2 : ℚ) ≠ 0),
      show ((52 - L) + (L - 52) : ℤ) = 0 from by ring, zpow_zero]
  have hS2 : (2 : ℚ) ^ (L - 52) = 2 ^ (L - 53) * 2 := by
    rw [show (L - 52 : ℤ) = (L - 53) + 1 from by ring,
      zpow_add_one₀ (by norm_num : (2 : ℚ) ≠ 0)]
  have hUc : (2 : ℚ) ^ L = 2 ^ (L - 53) * 2 ^ (53 : ℕ) := by
    rw [← zpow_natCast (2 : ℚ) 53, ← zpow_add₀ (by norm_num : (2 : ℚ) ≠ 0)]
    congr 1
    push_cast
    ring
  have hS : (0 : ℚ) < (2 : ℚ) ^ (L - 53) := by positivity
  have hlit : ((2 : ℚ) ^ (53 : ℕ)) = 9007199254740992 := by norm_num
  have hS53 : (2 : ℚ) ^ (L - 53) * 9007199254740992 ≤ (n : ℚ) / d := by
    rw [← hlit, ← hUc]
    exact hL
  have step1 : (M : ℚ) * 2 ^ (L - 52) ≤ (((n : ℚ) / d) * 2 ^ (52 - L) + 1 / 2) * 2 ^ (L - 52) :=
    mul_le_mul_of_nonneg_right hMle hT.le
  have step2 : (((n : ℚ) / d) * 2 ^ (52 - L) + 1 / 2) * 2 ^ (L - 52)
      = ((n : ℚ) / d) * (2 ^ (52 - L) * 2 ^ (L - 52)) + (2 ^ (L - 53) * 2) / 2 := by
    rw [← hS2]
    ring
  rw [hVT] at step2
  have step3 : ((n : ℚ) / d) * 1 + ((2 : ℚ) ^ (L - 53) * 2) / 2
      = (n : ℚ) / d + 2 ^ (L - 53) := by ring
  have hfinal : (n : ℚ) / d + 2 ^ (L - 53) ≤ ((n : ℚ) / d) * (1 + 1 / 2 ^ 53) := by
    rw [show ((1 : ℚ) + 1 / 2 ^ 53) = 1 + 1 / 9007199254740992 from by norm_num]
    nlinarith [hS53]
  calc (M : ℚ) * 2 ^ (L - 52) ≤ (((n : ℚ) / d) * 2 ^ (52 - L) + 1 / 2) * 2 ^ (L - 52) := step1
    _ = ((n : ℚ) / d) * 1 + ((2 : ℚ) ^ (L - 53) * 2) / 2 := step2
    _ = (n : ℚ) / d + 2 ^ (L - 53) := step3
    _ ≤ ((n : ℚ) / d) * (1 + 1 / 2 ^ 53) := hfinal

/-- The binary64 multiplication by 100 overestimates by at most another
half ulp. -/
theorem mulPow100_le (me : Nat × Int) :
    sigVal (mulPow100 me) ≤ sigVal me * (100 * (1 + 1 / 2 ^ 53)) := by
  rcases me with ⟨m, e⟩
  by_cases hm : m = 0
  · subst hm
    rw [show mulPow100 (0, e) = (0, (0 : ℤ) + e) from rfl]
    simp [sigVal]
  · have h1 : sigVal (roundSig53 (m * 100) 1) ≤ ((m * 100 : ℕ) : ℚ) / 1 * (1 + 1 / 2 ^ 53) :=
      roundSig53_le (m * 100) 1 (by omega) (by omega)
    rcases hr : roundSig53 (m * 100) 1 with ⟨mm, ee⟩
    have hmp : mulPow100 (m, e) = (mm, ee + e) := by
      rw [mulPow100]
      dsimp only
      rw [hr]
    rw [hr] at h1
    rw [hmp]
    have hsv : sigVal (mm, ee + e) = sigVal (mm, ee) * 2 ^ e := by
      rw [sigVal, sigVal]
      rw [zpow_add₀ (by norm_num : (2 : ℚ) ≠ 0)]
      ring
    rw [hsv]
    have hRHS : sigVal (m, e) * (100 * (1 + 1 / 2 ^ 53))
        = ((m : ℚ) * 100 * (1 + 1 / 2 ^ 53)) * 2 ^ e := by
      rw [sigVal]
      ring
    rw [hRHS]
    apply mul_le_mul_of_nonneg_right _ (le_of_lt (by positivity : (0 : ℚ) < (2 : ℚ) ^ e))
    calc sigVal (mm, ee) ≤ ((m * 100 : ℕ) : ℚ) / 1 * (1 + 1 / 2 ^ 53) := h1
      _ = (m : ℚ) * 100 * (1 + 1 / 2 ^ 53) := by
          push_cast
          ring

/-- `pyRound` stays at or below an even integer bound whenever its
argument is at most that bound plus a half (the tie rounds to the even
side). -/
theorem pyRound_le_half_of_even (x : ℚ) (n : ℤ) (hev : n % 2 = 0)
    (h : x ≤ (n : ℚ) + 1 / 2) : pyRound x ≤ n := by
  have hfl : ⌊x⌋ ≤ n := by
    have h1 : ⌊x⌋ ≤ ⌊(n : ℚ) + 1 / 2⌋ := Int.floor_le_floor h
    have h2 : ⌊(n : ℚ) + 1 / 2⌋ = n := by
      rw [Int.floor_eq_iff]
      constructor
      · linarith
      · push_cast
        linarith
    omega
  have hfx : (⌊x⌋ : ℚ) ≤ x := Int.floor_le x
  rw [pyRound]
  split_ifs with h1 h2 h3
  · exact hfl
  · have hlt : (⌊x⌋ : ℚ) < (n : ℚ) := by linarith
    have : ⌊x⌋ < n := by exact_mod_cast hlt
    omega
  · exact hfl
  · have heq : x - (⌊x⌋ : ℚ) = 1 / 2 := le_antisymm (not_lt.mp h2) (not_lt.mp h1)
    have hle : (⌊x⌋ : ℚ) ≤ (n : ℚ) := by linarith
    have hle' : ⌊x⌋ ≤ n := by exact_mod_cast hle
    omega

/-- The float-evaluated percentage is non-negative when the score and
the denominator are. -/
theorem pyFloatPercent_nonneg (a b : ℤ) (ha : 0 ≤ a) (hb : 0 ≤ b) :
    0 ≤ pyFloatPercent a b := by
  have hda : decide (a < 0) = false := decide_eq_false (by omega)
  have hdb : decide (b < 0) = false := decide_eq_false (by omega)
  rw [pyFloatPercent]
  rw [hda, hdb]
  simp only [Bool.xor_false, Bool.false_eq_true, if_false]
  exact Int.natCast_nonneg _

/-- The float-evaluated percentage of a score against a total it never
exceeds is at most 100: the two relative rounding errors of at most
`2^-53` each keep the double below `100.5`, and the final half-to-even
rounding cannot cross it (100 is even). -/
theorem pyFloatPercent_le_100 (a b : ℕ) (hb : 0 < b) (hab : a ≤ b) :
    pyFloatPercent (a : ℤ) (b : ℤ) ≤ 100 := by
  by_cases ha : a = 0
  · subst ha
    rw [show ((0 : ℕ) : ℤ) = (0 : ℤ) from rfl, pyFloatPercent_zero]
    omega
  · have hda : decide ((a : ℤ) < 0) = false := decide_eq_false (by omega)
    have hdb : decide ((b : ℤ) < 0) = false := decide_eq_false (by omega)
    rw [pyFloatPercent]
    rw [hda, hdb]
    simp only [Bool.xor_false, Bool.false_eq_true, if_false]
    rw [Int.natAbs_ofNat, Int.natAbs_ofNat]
    have hv1 : sigVal (roundSig53 a b) ≤ ((a : ℚ) / b) * (1 + 1 / 2 ^ 53) :=
      roundSig53_le a b (by omega) hb
    have hv2 : sigVal (mulPow100 (roundSig53 a b))
        ≤ sigVal (roundSig53 a b) * (100 * (1 + 1 / 2 ^ 53)) :=
      mulPow100_le _
    have hab' : (a : ℚ) / b ≤ 1 := by
      rw [div_le_one (by exact_mod_cast hb)]
      exact_mod_cast hab
    have h4 : sigVal (roundSig53 a b) ≤ 1 + 1 / 2 ^ 53 :=
      le_trans hv1 (mul_le_of_le_one_left (by norm_num) hab')
    have h5 : sigVal (roundSig53 a b) * (100 * (1 + 1 / 2 ^ 53))
        ≤ (1 + 1 / 2 ^ 53) * (100 * (1 + 1 / 2 ^ 53)) :=
      mul_le_mul_of_nonneg_right h4 (by norm_num)
    have hval : sigVal (mulPow100 (roundSig53 a b)) ≤ (100 : ℚ) + 1 / 2 := by
      have hnum : ((1 : ℚ) + 1 / 2 ^ 53) * (100 * (1 + 1 / 2 ^ 53)) ≤ 100 + 1 / 2 := by
        norm_num
      linarith
    rcases hme : mulPow100 (roundSig53 a b) with ⟨m, E⟩
    rw [hme] at hval
    rw [sigVal] at hval
    rw [roundFloatPos_eq_pyRound]
    exact pyRound_le_half_of_even _ 100 (by decide) (by push_cast; linarith)

/-- The raw-answers path never reports a percentage above 100: the
dominant score never exceeds the `total_possible` denominator. -/
theorem rawPercentage_le_100 :
    ∀ (payload : List (PyStr × PyStr)) (r : PredictResponse),
      predictRaw payload = .ok r → r.percentage ≤ 100 := by
  intro payload r h
  rw [predictRaw] at h
  split at h
  · exact absurd h (by simp)
  · injection h with h
    subst h
    have hsc : ∀ c, (scoreLoop (payload.map fun kv => (kv.1, pyUpper (pyStrip kv.2)))).scores.get c ≤
        (scoreLoop (payload.map fun kv => (kv.1, pyUpper (pyStrip kv.2)))).totalPossible :=
      fun c => scores_le_total _ initAcc c (by cases c <;> simp [initAcc, Tri.get])
    by_cases ht : (scoreLoop (payload.map fun kv => (kv.1, pyUpper (pyStrip kv.2)))).totalPossible = 0
    · have h0 : (scoreLoop (payload.map fun kv => (kv.1, pyUpper (pyStrip kv.2)))).scores.get
          (dominantCat (scoreLoop (payload.map fun kv => (kv.1, pyUpper (pyStrip kv.2)))).scores
            (scoreLoop (payload.map fun kv => (kv.1, pyUpper (pyStrip kv.2)))).counts) = 0 := by
        have := hsc (dominantCat (scoreLoop (payload.map fun kv => (kv.1, pyUpper (pyStrip kv.2)))).scores
            (scoreLoop (payload.map fun kv => (kv.1, pyUpper (pyStrip kv.2)))).counts)
        omega
      simp only [h0, ht, if_pos rfl]
      rw [show ((0 : Nat) : Int) = (0 : Int) by rfl]
      rw [pyFloatPercent_zero]
      omega
    · simp only [if_neg ht]
      apply pyFloatPercent_le_100
      · omega
      · have h1 := hsc (dominantCat (scoreLoop (payload.map fun kv => (kv.1, pyUpper (pyStrip kv.2)))).scores
            (scoreLoop (payload.map fun kv => (kv.1, pyUpper (pyStrip kv.2)))).counts)
        omega

/-- C5 counterexample (the claim's negation): no non-empty answers map
in the raw-answers path yields a percentage exceeding 100 — each
recognized answer adds at most as much to its category score as it adds
to `total_possible`, so `score[dominant] ≤ total_possible` always. -/
theorem C5_counterexample :
    ¬ ∃ (payload : List (PyStr × PyStr)) (r : PredictResponse),
        predictRaw payload = .ok r ∧ 100 < r.percentage := by
  rintro ⟨payload, r, h, hgt⟩
  exact absurd hgt (not_lt.mpr (rawPercentage_le_100 payload r h))

/-- C5 amended: for every answers map accepted by the raw-answers path
the returned percentage is at most 100 (the total-possible heuristic
never underestimates the dominant category's score). -/
theorem C5_percentage_bounded :
    ∀ (payload : List (PyStr × PyStr)) (r : PredictResponse),
      predictRaw payload = .ok r → r.percentage ≤ 100 :=
  rawPercentage_le_100

/-- Witness for C5 amended at the input `{q1: A}`. -/
theorem C5_percentage_bounded_witness :
    ({ user_category := "Short".toList
       scores := ⟨2, 0, 0⟩
       percentage := 100
       message := mappedMessage "Short".toList
       recommended_courses := ["advanced_react_patterns".toList] } :
        PredictResponse).percentage ≤ 100 :=
  C5_percentage_bounded [("q1".toList, "A".toList)] _ rfl

set_option maxHeartbeats 1000000 in
/-- The per-question increment the code adds to `total_possible`
(`max(mapping[key].values(), key=weight)[1]`) equals the claim's
"maximum available weight" of that question. -/
theorem maxOptWeight_eq_spec (key : PyStr) (opts : List (PyStr × Cat × Nat))
    (hq : qOptions key = some opts) : maxOptWeight opts = specQuestionMax key := by
  unfold specQuestionMax
  rw [hq]
  unfold qOptions at hq
  split_ifs at hq <;> injection hq with hq <;> subst hq <;> decide

/-- The scoring loop's `total_possible` equals the claim's sum over
recognized (question, answer) pairs of the question's maximum available
weight (the loop's re-normalization of already-normalized values is
absorbed by idempotence). -/
theorem foldl_total_eq (l : List (PyStr × PyStr)) :
    ∀ (acc : ScoreAcc),
      ((l.map (fun kv => (kv.1, pyUpper (pyStrip kv.2)))).foldl scoreStep acc).totalPossible =
      l.foldl (fun t kv =>
        if (mappingLookup (pyStrip kv.1) (pyUpper (pyStrip kv.2))).isSome
        then t + specQuestionMax (pyStrip kv.1) else t) acc.totalPossible := by
  induction l with
  | nil => intro acc; rfl
  | cons kv rest ih =>
    intro acc
    rw [List.map_cons, List.foldl_cons, List.foldl_cons]
    rw [ih]
    congr 1
    unfold scoreStep mappingLookup
    rcases hq : qOptions (pyStrip kv.1) with _ | opts <;> simp only [hq]
    · rfl
    · rw [normVal_idem]
      have key : ∀ (o : Option (Cat × Nat)),
          (match o with
            | none => acc
            | some (cat, w) =>
              { scores := acc.scores.set cat (acc.scores.get cat + w)
                counts := acc.counts.set cat (acc.counts.get cat + 1)
                totalPossible := acc.totalPossible + maxOptWeight opts } : ScoreAcc).totalPossible =
          if o.isSome then acc.totalPossible + maxOptWeight opts else acc.totalPossible := by
        rintro (_ | ⟨cat, w⟩) <;> rfl
      rw [key, maxOptWeight_eq_spec _ _ hq]

/-- The zero fallback counts the `q`-prefixed keys of the original
payload (value normalization leaves keys untouched). -/
theorem fallbackTotal_map (l : List (PyStr × PyStr)) :
    fallbackTotal (l.map (fun kv => (kv.1, pyUpper (pyStrip kv.2)))) =
      2 * max 1 (l.filter (fun kv => pyStartsWith (pyLower kv.1) ['q'])).length := by
  unfold fallbackTotal
  rw [List.filter_map, List.length_map]
  rfl

/-- Looking a category name up in a scores dict returns that category's
entry. -/
theorem scoreGetByName_catName (t : Tri Int) (c : Cat) :
    scoreGetByName t (catName c) = t.get c := by
  cases c <;> unfold scoreGetByName catName Tri.get
  · rw [if_pos rfl]
  · rw [if_neg (by decide), if_pos rfl]
  · rw [if_neg (by decide), if_neg (by decide), if_pos rfl]

/-- Indexing commutes with the `int` coercion of the scores triple. -/
theorem triInt_get (x : Tri Nat) (d : Cat) :
    (⟨(x.short : Int), (x.elaborate : Int), (x.realistic : Int)⟩ : Tri Int).get d
      = ((x.get d : Nat) : Int) := by
  cases d <;> rfl

/-- C4 counterexample: the twenty whitespace-distinct answer keys of
`c4Payload` strip to `q1`/`q2` and give the dominant score 23 of
`total_possible` 40; the program returns percentage 57 (the double
`23 / 40 * 100` is `57.49999999999999`), while the claim's exact
`round(100 × score[dominant] / max(1, total_possible)) = round(57.5)`
is 58. -/
theorem C4_counterexample :
    c4Payload ≠ [] ∧
    predictRaw c4Payload = .ok
      { user_category := "Short".toList
        scores := ⟨23, 0, 0⟩
        percentage := 57
        message := mappedMessage "Short".toList
        recommended_courses := ["advanced_react_patterns".toList] } ∧
    pyRound (100 * (scoreGetByName ⟨23, 0, 0⟩ "Short".toList : ℚ) /
      ((max 1 (specTotalPossible c4Payload) : Nat) : ℚ)) = 58 := by
  refine ⟨by decide, by rfl, ?_⟩
  rw [show scoreGetByName ⟨23, 0, 0⟩ "Short".toList = 23 from by decide]
  rw [show (max 1 (specTotalPossible c4Payload) : Nat) = 40 from by decide]
  rw [show (100 * ((23 : ℤ) : ℚ) / ((40 : ℕ) : ℚ)) = 115 / 2 from by norm_num]
  exact pyRound_575

/-- C4 (amended): in the raw-answers path, for every non-empty answers
map the returned percentage is a non-negative integer equal to Python's
banker's rounding of the IEEE-754 double evaluation of
`score[dominant] / max(1, total_possible) * 100` — which can differ by
one from the exact `round(100 × score[dominant] / max(1,
total_possible))` at representation boundaries — where `total_possible`
sums each recognized (question, answer) pair's maximum available weight
and falls back to `2 × max(1, number of answer keys beginning with the
letter q)` when that sum is zero. -/
theorem C4_raw_float_percentage :
    ∀ (payload : List (PyStr × PyStr)) (r : PredictResponse),
      payload ≠ [] →
      predictRaw payload = .ok r →
      0 ≤ r.percentage ∧
      r.percentage =
        pyRound (floatTimes100Val (scoreGetByName r.scores r.user_category)
          ((max 1 (specTotalPossible payload) : Nat) : ℤ)) := by
  intro payload r hne h
  rw [predictRaw] at h
  split at h
  · exact absurd h (by simp)
  · injection h with h
    subst h
    constructor
    · exact pyFloatPercent_nonneg _ _ (Int.natCast_nonneg _) (Int.natCast_nonneg _)
    · rw [scoreGetByName_catName, triInt_get]
      have htp : (scoreLoop (payload.map fun kv => (kv.1, pyUpper (pyStrip kv.2)))).totalPossible
          = specTotalSum payload := foldl_total_eq payload initAcc
      have hT : (if (scoreLoop (payload.map fun kv => (kv.1, pyUpper (pyStrip kv.2)))).totalPossible = 0
            then fallbackTotal (payload.map fun kv => (kv.1, pyUpper (pyStrip kv.2)))
            else (scoreLoop (payload.map fun kv => (kv.1, pyUpper (pyStrip kv.2)))).totalPossible)
          = specTotalPossible payload := by
        rw [htp, fallbackTotal_map]
        rfl
      rw [hT]
      rw [pyFloatPercent_eq_pyRound]

/-- Witness for C4 (amended) at the input `{q2: B}` (Elaborate 2 of 2,
100% — here the double evaluation is exact). -/
theorem C4_raw_float_percentage_witness :
    0 ≤ ({ user_category := "Elaborate".toList
           scores := ⟨0, 2, 0⟩
           percentage := 100
           message := mappedMessage "Elaborate".toList
           recommended_courses := ["typescript_deep_dive".toList, "machine_learning_basics".toList] } :
            PredictResponse).percentage ∧
    ({ user_category := "Elaborate".toList
       scores := ⟨0, 2, 0⟩
       percentage := 100
       message := mappedMessage "Elaborate".toList
       recommended_courses := ["typescript_deep_dive".toList, "machine_learning_basics".toList] } :
        PredictResponse).percentage =
      pyRound (floatTimes100Val (scoreGetByName ⟨0, 2, 0⟩ "Elaborate".toList)
        ((max 1 (specTotalPossible [("q2".toList, "B".toList)]) : Nat) : ℤ)) :=
  C4_raw_float_percentage [("q2".toList, "B".toList)] _ (by decide) rfl
